import Mathlib

/-!
# Task tracker backend (`server.js`): shallow embedding and verified claims

The Express handlers of `server.js` are embedded as pure functions over an explicit
database value (`Db`: the `users` and `tasks` tables of `data.db`) and an explicit
session payload (`Session`: what express-session keeps for one cookie).

Conventions of the embedding

* Request fields carry the JSON type the API documents (strings for text fields, an
  integer for `priority`); `none` stands for a field that is missing or `null`.
  JSON numbers are integral.  Query-string parameters are single strings.
* `created_at` (`datetime('now')`, a fixed-width text) is its clock reading in seconds:
  the text order and the numeric order coincide.
* The primitives that live outside the repository are parameters (`Platform`):
  bcrypt, `String.prototype.toLowerCase`, and SQLite's conversion of a TEXT operand
  that is compared with the INTEGER PRIMARY KEY column.
* Storage errors other than constraint violations and the size limit of a LIKE
  pattern are not modelled: a statement either succeeds or fails on one of these.
  Size limits of the HTTP layer are not modelled.
* Requests are handled one at a time.
-/

namespace TaskTracker

/-! ## JavaScript and SQLite string primitives -/

/-- ECMAScript `WhiteSpace` and `LineTerminator` code points: what
`String.prototype.trim` strips and what the regular-expression class `\s` matches. -/
def isJsSpace (c : Char) : Bool :=
  let n := c.toNat
  n == 0x09 || n == 0x0A || n == 0x0B || n == 0x0C || n == 0x0D || n == 0x20 ||
  n == 0xA0 || n == 0x1680 || (0x2000 ≤ n && n ≤ 0x200A) || n == 0x2028 ||
  n == 0x2029 || n == 0x202F || n == 0x205F || n == 0x3000 || n == 0xFEFF

/-- Characters of `s.trim()`. -/
def jsTrimChars (cs : List Char) : List Char :=
  ((cs.dropWhile isJsSpace).reverse.dropWhile isJsSpace).reverse

/-- JavaScript `s.trim()`. -/
def jsTrim (s : String) : String := ⟨jsTrimChars s.data⟩

/-- JavaScript `s.length`: the number of UTF-16 code units. -/
def jsLength (s : String) : Nat :=
  (s.data.map (fun c => if c.toNat < 0x10000 then 1 else 2)).sum

/-- JavaScript truthiness of a string-or-missing value: `undefined`, `null` and `''`
are falsy. -/
def truthyStr : Option String → Bool
  | none => false
  | some s => !s.data.isEmpty

/-- JavaScript truthiness of a number-or-missing value: `undefined`, `null` and `0`
are falsy. -/
def truthyInt : Option Int → Bool
  | none => false
  | some n => n != 0

/-- JavaScript truthiness of a stored row id or session user id. -/
def truthyId : Option Nat → Bool
  | none => false
  | some n => n != 0

/-- SQLite folds only the 26 ASCII capitals, in `lower()` and in `LIKE`. -/
def asciiLower (c : Char) : Char :=
  if 65 ≤ c.toNat ∧ c.toNat ≤ 90 then Char.ofNat (c.toNat + 32) else c

/-- SQLite `lower(s)` (built without ICU, as the `sqlite3` npm package ships it). -/
def sqliteLower (s : String) : String := ⟨s.data.map asciiLower⟩

/-- SQLite hands the operands of `LIKE` to its matcher as NUL-terminated texts: the
matcher sees an operand only up to its first U+0000. -/
def cText (cs : List Char) : List Char := cs.takeWhile (fun c => c.toNat != 0)

/-- The code point that the UTF-8 reader of SQLite yields for a character: U+FFFE and
U+FFFF are read as U+FFFD. -/
def sqliteRead (c : Char) : Char :=
  if c.toNat = 0xFFFE ∨ c.toNat = 0xFFFF then Char.ofNat 0xFFFD else c

/-- The form under which `LIKE` compares two characters: as read, up to ASCII case. -/
def likeFold (c : Char) : Char := asciiLower (sqliteRead c)

/-- SQLite's matcher for `text LIKE pattern` without ESCAPE clause, on the texts it
sees: `%` matches any run of characters (also none), `_` matches exactly one
character, every other pattern character matches a character that reads the same up
to ASCII case. -/
def likeMatch : List Char → List Char → Bool
  | [], s => s.isEmpty
  | p :: ps, s =>
    if p = '%' then s.tails.any (fun t => likeMatch ps t)
    else match s with
      | [] => false
      | c :: cs => (p == '_' || likeFold p == likeFold c) && likeMatch ps cs

/-- SQL `col LIKE "%" || ? || "%"`; a NULL column makes the condition not true.  The
concatenation keeps the whole bound text; the matcher then reads pattern and column
up to their first U+0000. -/
def sqlLikeContains (search : String) : Option String → Bool
  | none => false
  | some col => likeMatch (cText ('%' :: (search.data ++ ['%']))) (cText col.data)

/-- The class `[^\s@]` of the email regular expression. -/
def emailChar (c : Char) : Bool := !isJsSpace c && c != '@'

/-- The test `/[^\s@]+\.[^\s@]+$/` anchored at the start of `d`, where `d` is
known to consist of `[^\s@]` characters: some `.` has at least one character before
it and at least one after it. -/
def hasInnerDot : List Char → Bool
  | [] => false
  | [_] => false
  | _ :: c :: cs => (c == '.' && !cs.isEmpty) || hasInnerDot (c :: cs)

/-- The test `/^[^\s@]+@[^\s@]+\.[^\s@]+$/.test(s)`.  The first class cannot cross an
`@`, so the local part is the longest run of `[^\s@]` characters and must be
followed by `@`; the rest must consist of `[^\s@]` characters around an inner dot. -/
def emailRegexTest (s : String) : Bool :=
  let loc := s.data.takeWhile emailChar
  match s.data.dropWhile emailChar with
  | [] => false
  | c :: d => c == '@' && !loc.isEmpty && d.all emailChar && hasInnerDot d

/-! ## External primitives -/

/-- Primitives supplied by the libraries around `server.js`. -/
structure Platform where
  /-- The call `bcrypt.hash(password, 10)`, as a function of the password and the salt
  it draws. -/
  bcryptHash : String → String → String
  /-- The call `bcrypt.compare(password, hash)`. -/
  bcryptCompare : String → String → Bool
  /-- JavaScript `String.prototype.toLowerCase`. -/
  toLowerCase : String → String
  /-- SQLite's reading of a TEXT operand compared with the INTEGER PRIMARY KEY
  column: the row id it denotes, if it denotes one. -/
  textToRowId : String → Option Nat

/-- What one request observes of its surroundings. -/
structure Env where
  /-- Reading of `datetime('now')`. -/
  now : Nat
  /-- Salt drawn by `bcrypt.hash`. -/
  salt : String
  /-- Whether the session store reports an error when asked to destroy the session. -/
  destroyFails : Bool

/-! ## Data model -/

/-- A row of `users`. -/
structure User where
  id : Nat
  username : String
  password_hash : String
  email : Option String
  created_at : Nat
deriving DecidableEq

/-- A row of `tasks`.  `user_id` is NULL for rows older than the owner column;
`priority` is whatever the client sent (possibly NULL); `completed` is the stored
integer. -/
structure Task where
  id : Nat
  user_id : Option Nat
  title : String
  description : Option String
  due_date : Option String
  priority : Option Int
  completed : Int
  created_at : Nat
deriving DecidableEq

/-- The database `data.db`: both tables and their AUTOINCREMENT counters
(`sqlite_sequence`). -/
structure Db where
  users : List User
  tasks : List Task
  user_seq : Nat
  task_seq : Nat
deriving DecidableEq

/-- Payload of `req.session`. -/
structure Session where
  userId : Option Nat
  username : Option String
deriving DecidableEq

/-- The session of a client without (or with a destroyed) cookie. -/
def Session.empty : Session := ⟨none, none⟩

/-- JSON bodies sent by the handlers. -/
inductive Body where
  | error (msg : String)
  | publicUser (id : Nat) (username : String) (email : Option String)
  | userRow (id : Nat) (username : String) (created_at : Nat) (email : Option String)
  | success
  | successEmail (email : String)
  | task (t : Task)
  | tasks (ts : List Task)
  | null
  | undefined
deriving DecidableEq

/-- An HTTP response: status code and JSON body. -/
structure Response where
  status : Nat
  body : Body
deriving DecidableEq

/-- Body `{username, password}` of register and login. -/
structure Credentials where
  username : Option String
  password : Option String
deriving DecidableEq

/-- Query string of `GET /api/tasks`. -/
structure ListQuery where
  completed : Option String
  priority : Option String
  search : Option String
deriving DecidableEq

/-- Body of `POST /api/tasks`.  `user_id` is a field a client may send; the handler
does not read it. -/
structure CreateBody where
  title : Option String
  description : Option String
  due_date : Option String
  priority : Option Int
  user_id : Option Int
deriving DecidableEq

/-- Body of `PUT /api/tasks/:id`; `completed` is the truthiness of the field
(`completed ? 1 : 0` is all the handler does with it). -/
structure UpdateBody where
  title : Option String
  description : Option String
  due_date : Option String
  priority : Option Int
  completed : Bool
deriving DecidableEq

/-! ## SQL statements -/

/-- The connection setting `PRAGMA foreign_keys`.  SQLite leaves foreign-key
enforcement off on every new connection until the pragma is issued; `server.js`
opens the connection with `new sqlite3.Database(dbFile, cb)` and never issues it, so
the `FOREIGN KEY (user_id) REFERENCES users(id) ON DELETE CASCADE` clause of the
`tasks` table is parsed but not enforced. -/
def foreignKeysEnabled : Bool := false

/-- Row id given by an AUTOINCREMENT insert: one more than the largest id ever used. -/
def nextId (seq : Nat) (ids : List Nat) : Nat := max seq (ids.foldr max 0) + 1

/-- The statement `SELECT ... FROM users WHERE username = ?` (first row). -/
def Db.userByName (db : Db) (name : String) : Option User :=
  db.users.find? (fun u => decide (u.username = name))

/-- The statement `SELECT ... FROM users WHERE id = ?` with a numeric id (first row). -/
def Db.userById (db : Db) (id : Nat) : Option User :=
  db.users.find? (fun u => decide (u.id = id))

/-- The statement `SELECT id FROM users WHERE lower(email) = ?` (first row); a NULL
email never compares equal. -/
def Db.userByLowerEmail (db : Db) (email : String) : Option User :=
  db.users.find? (fun u => decide (u.email.map sqliteLower = some email))

/-- The statement `SELECT * FROM tasks WHERE id = ?` with a numeric id (first row). -/
def Db.taskById (db : Db) (id : Nat) : Option Task :=
  db.tasks.find? (fun t => decide (t.id = id))

/-- The statement `SELECT * FROM tasks WHERE id = ?` with the route parameter, a
string: a text that denotes no row id matches no row. -/
def Db.taskByParam (P : Platform) (db : Db) (id : String) : Option Task :=
  match P.textToRowId id with
  | none => none
  | some n => db.taskById n

/-- The statement `UPDATE tasks SET ... WHERE id = ?` with the route parameter. -/
def Db.updateTasksByParam (P : Platform) (db : Db) (id : String) (f : Task → Task) : Db :=
  match P.textToRowId id with
  | none => db
  | some n => { db with tasks := db.tasks.map (fun t => if t.id = n then f t else t) }

/-- The statement `DELETE FROM tasks WHERE id = ?` with the route parameter. -/
def Db.deleteTasksByParam (P : Platform) (db : Db) (id : String) : Db :=
  match P.textToRowId id with
  | none => db
  | some n => { db with tasks := db.tasks.filter (fun t => decide (t.id ≠ n)) }

/-- The statement `INSERT INTO users (username, password_hash) VALUES (?, ?)`: the
new id, and the table with the row appended (`email` NULL, `created_at` now).  The
caller has established that the UNIQUE username is free. -/
def Db.insertUser (db : Db) (env : Env) (username hash : String) : Nat × Db :=
  let id := nextId db.user_seq (db.users.map (·.id))
  (id, { db with users := db.users ++ [⟨id, username, hash, none, env.now⟩], user_seq := id })

/-- The statement
`INSERT INTO tasks (user_id, title, description, due_date, priority) VALUES (?, ?, ?, ?, ?)`:
`completed` takes its default 0 and `created_at` the clock.  With foreign keys
enforced the insert fails when `user_id` names no user. -/
def Db.insertTask (db : Db) (env : Env) (uid : Option Nat) (title : String)
    (description due_date : Option String) (priority : Option Int) : Option (Nat × Db) :=
  if foreignKeysEnabled && uid.isSome && !(db.users.any (fun u => decide (some u.id = uid))) then
    none
  else
    let id := nextId db.task_seq (db.tasks.map (·.id))
    some (id, { db with
      tasks := db.tasks ++ [⟨id, uid, title, description, due_date, priority, 0, env.now⟩],
      task_seq := id })

/-- The statement `DELETE FROM users WHERE id = ?`.  Only with foreign keys enforced
does the ON DELETE CASCADE clause remove the tasks of the deleted user. -/
def Db.deleteUser (db : Db) (id : Nat) : Db :=
  { db with
    users := db.users.filter (fun u => decide (u.id ≠ id)),
    tasks := if foreignKeysEnabled then db.tasks.filter (fun t => decide (t.user_id ≠ some id))
             else db.tasks }

/-- The statement `UPDATE users SET email = ? WHERE id = ?`. -/
def Db.setEmail (db : Db) (id : Nat) (email : String) : Db :=
  { db with users := db.users.map (fun u => if u.id = id then { u with email := some email } else u) }

/-! ## Handlers

Every handler maps the database and the session payload before the request to the
response, the database and the session payload after it. -/

/-- The middleware `requireAuth`: `req.session && req.session.userId`. -/
def requireAuth (sess : Session) : Bool := truthyId sess.userId

/-- The response of `requireAuth` to an anonymous session. -/
def unauthorized : Response := ⟨401, .error "Unauthorized"⟩

/-- The response `res.status(404).json({ error: 'Not found' })`. -/
def notFound : Response := ⟨404, .error "Not found"⟩

/-- The expression `x || null` on a string-or-missing value. -/
def orNull (x : Option String) : Option String := if truthyStr x then x else none

/-- The call `res.json(row)` on the result of a `get`. -/
def jsonTask : Option Task → Body
  | some t => .task t
  | none => .undefined

/-- Handler `POST /auth/register`. -/
def register (P : Platform) (env : Env) (db : Db) (sess : Session) (b : Credentials) :
    Response × Db × Session :=
  if !truthyStr b.username || !truthyStr b.password then
    (⟨400, .error "username and password required"⟩, db, sess)
  else
    let username := b.username.getD ""
    let password := b.password.getD ""
    if jsLength (jsTrim username) < 3 then
      (⟨400, .error "username must be at least 3 chars"⟩, db, sess)
    else if jsLength password < 6 then
      (⟨400, .error "password must be at least 6 chars"⟩, db, sess)
    else
      match db.userByName username with
      | some _ => (⟨400, .error "Username already taken"⟩, db, sess)
      | none =>
        let ins := db.insertUser env username (P.bcryptHash password env.salt)
        match ins.2.userById ins.1 with
        | none => (⟨500, .error "Server error"⟩, ins.2, sess)
        | some user =>
          (⟨201, .publicUser user.id user.username (orNull user.email)⟩, ins.2,
            ⟨some user.id, some user.username⟩)

/-- Handler `POST /auth/login`. -/
def login (P : Platform) (db : Db) (sess : Session) (b : Credentials) :
    Response × Db × Session :=
  if !truthyStr b.username || !truthyStr b.password then
    (⟨400, .error "username and password required"⟩, db, sess)
  else
    match db.userByName (b.username.getD "") with
    | none => (⟨400, .error "Invalid credentials"⟩, db, sess)
    | some user =>
      if !P.bcryptCompare (b.password.getD "") user.password_hash then
        (⟨400, .error "Invalid credentials"⟩, db, sess)
      else
        (⟨200, .publicUser user.id user.username (orNull user.email)⟩, db,
          ⟨some user.id, some user.username⟩)

/-- Handler `POST /auth/logout`; express-session always provides `req.session`. -/
def logout (env : Env) (db : Db) (sess : Session) : Response × Db × Session :=
  if env.destroyFails then (⟨500, .error "Logout failed"⟩, db, sess)
  else (⟨200, .success⟩, db, Session.empty)

/-- Handler `GET /auth/me`. -/
def me (db : Db) (sess : Session) : Response × Db × Session :=
  if truthyId sess.userId then
    match db.userById (sess.userId.getD 0) with
    | some u => (⟨200, .userRow u.id u.username u.created_at u.email⟩, db, sess)
    | none => (⟨200, .undefined⟩, db, sess)
  else (⟨200, .null⟩, db, sess)

/-- Handler `POST /auth/change-email`. -/
def changeEmail (P : Platform) (db : Db) (sess : Session) (newEmail : Option String) :
    Response × Db × Session :=
  if !requireAuth sess then (unauthorized, db, sess)
  else if !truthyStr newEmail || (jsTrim (newEmail.getD "")).data.isEmpty then
    (⟨400, .error "Email required"⟩, db, sess)
  else
    let email := P.toLowerCase (jsTrim (newEmail.getD ""))
    if !emailRegexTest email then (⟨400, .error "Invalid email format"⟩, db, sess)
    else
      match db.userByLowerEmail email with
      | some existing =>
        if some existing.id ≠ sess.userId then (⟨400, .error "Email already in use"⟩, db, sess)
        else (⟨200, .successEmail email⟩, db.setEmail (sess.userId.getD 0) email, sess)
      | none => (⟨200, .successEmail email⟩, db.setEmail (sess.userId.getD 0) email, sess)

/-- Handler `POST /auth/delete-account`.  The response is sent right after
`req.session.destroy` is called; an error of the store is only logged, and the stored
session then survives. -/
def deleteAccount (P : Platform) (env : Env) (db : Db) (sess : Session)
    (password : Option String) : Response × Db × Session :=
  if !requireAuth sess then (unauthorized, db, sess)
  else if !truthyStr password then (⟨400, .error "Password required"⟩, db, sess)
  else
    match db.userById (sess.userId.getD 0) with
    | none => (⟨400, .error "User not found"⟩, db, sess)
    | some user =>
      if !P.bcryptCompare (password.getD "") user.password_hash then
        (⟨400, .error "Incorrect password"⟩, db, sess)
      else
        (⟨200, .success⟩, db.deleteUser user.id,
          if env.destroyFails then sess else Session.empty)

/-- The conjuncts that `GET /api/tasks` assembles before the search: the owner test,
then one conjunct for each recognised `completed` and `priority` value.  The bound
texts `'0'`..`'3'` are compared numerically with the INTEGER columns. -/
def listWhereHead (uid : Nat) (q : ListQuery) (t : Task) : Bool :=
  decide (t.user_id = some uid)
  && (if q.completed = some "0" then decide (t.completed = 0)
      else if q.completed = some "1" then decide (t.completed = 1) else true)
  && (if q.priority = some "1" then decide (t.priority = some 1)
      else if q.priority = some "2" then decide (t.priority = some 2)
      else if q.priority = some "3" then decide (t.priority = some 3) else true)

/-- The WHERE clause that `GET /api/tasks` assembles: the conjuncts above, then the
search conjunct when the search is not blank. -/
def listWhere (uid : Nat) (q : ListQuery) (t : Task) : Bool :=
  listWhereHead uid q t
  && (if truthyStr q.search && !(jsTrim (q.search.getD "")).data.isEmpty then
        sqlLikeContains (q.search.getD "") (some t.title)
          || sqlLikeContains (q.search.getD "") t.description
      else true)

/-- Size of a text in UTF-8, the encoding in which it is bound. -/
def utf8Bytes (s : String) : Nat := (s.data.map Char.utf8Size).sum

/-- SQLite's default limit on the size of a LIKE pattern, in bytes
(`SQLITE_MAX_LIKE_PATTERN_LENGTH`). -/
def likePatternLimit : Nat := 50000

/-- Whether the SELECT of `GET /api/tasks` fails with `LIKE or GLOB pattern too
complex`: the search conjunct is present, the pattern `"%" || ? || "%"` exceeds the
limit, and some row passes the conjuncts before it, so that LIKE is evaluated. -/
def likeFails (uid : Nat) (q : ListQuery) (db : Db) : Bool :=
  (truthyStr q.search && !(jsTrim (q.search.getD "")).data.isEmpty)
  && decide (likePatternLimit < utf8Bytes (q.search.getD "") + 2)
  && db.tasks.any (listWhereHead uid q)

/-- The clause `ORDER BY priority ASC, created_at DESC`: whether row `a` may precede
row `b`.  NULL sorts before every number. -/
def listBefore (a b : Task) : Bool :=
  match a.priority, b.priority with
  | none, none => decide (b.created_at ≤ a.created_at)
  | none, some _ => true
  | some _, none => false
  | some x, some y => decide (x < y) || (decide (x = y) && decide (b.created_at ≤ a.created_at))

/-- Handler `GET /api/tasks`; rows that tie in the ORDER BY keep their table order. -/
def listTasks (db : Db) (sess : Session) (q : ListQuery) : Response × Db × Session :=
  if !requireAuth sess then (unauthorized, db, sess)
  else if likeFails (sess.userId.getD 0) q db then (⟨500, .error "DB error"⟩, db, sess)
  else
    (⟨200, .tasks ((db.tasks.filter (listWhere (sess.userId.getD 0) q)).insertionSort (fun a b => listBefore a b = true))⟩,
      db, sess)

/-- Handler `POST /api/tasks`. -/
def createTask (env : Env) (db : Db) (sess : Session) (b : CreateBody) :
    Response × Db × Session :=
  if !requireAuth sess then (unauthorized, db, sess)
  else if !truthyStr b.title || (jsTrim (b.title.getD "")).data.isEmpty then
    (⟨400, .error "Title is required"⟩, db, sess)
  else
    match db.insertTask env sess.userId (jsTrim (b.title.getD "")) (orNull b.description)
        (orNull b.due_date) (if truthyInt b.priority then b.priority else some 2) with
    | none => (⟨500, .error "DB error"⟩, db, sess)
    | some ins => (⟨201, jsonTask (ins.2.taskById ins.1)⟩, ins.2, sess)

/-- Handler `PUT /api/tasks/:id`.  A missing title is bound as NULL and violates
`title TEXT NOT NULL`: the statement fails and the handler answers 500. -/
def updateTask (P : Platform) (db : Db) (sess : Session) (id : String) (b : UpdateBody) :
    Response × Db × Session :=
  if !requireAuth sess then (unauthorized, db, sess)
  else
    match db.taskByParam P id with
    | none => (notFound, db, sess)
    | some task =>
      if task.user_id ≠ sess.userId then (notFound, db, sess)
      else
        match b.title with
        | none => (⟨500, .error "DB error"⟩, db, sess)
        | some title =>
          let db2 := db.updateTasksByParam P id (fun t =>
            { t with title := title, description := b.description, due_date := b.due_date,
                     priority := b.priority, completed := if b.completed then 1 else 0 })
          (⟨200, jsonTask (db2.taskByParam P id)⟩, db2, sess)

/-- Handler `PATCH /api/tasks/:id/toggle`. -/
def toggleTask (P : Platform) (db : Db) (sess : Session) (id : String) :
    Response × Db × Session :=
  if !requireAuth sess then (unauthorized, db, sess)
  else
    match db.taskByParam P id with
    | none => (notFound, db, sess)
    | some task =>
      if task.user_id ≠ sess.userId then (notFound, db, sess)
      else
        let newVal : Int := if task.completed ≠ 0 then 0 else 1
        let db2 := db.updateTasksByParam P id (fun t => { t with completed := newVal })
        (⟨200, jsonTask (db2.taskByParam P id)⟩, db2, sess)

/-- Handler `DELETE /api/tasks/:id`. -/
def deleteTask (P : Platform) (db : Db) (sess : Session) (id : String) :
    Response × Db × Session :=
  if !requireAuth sess then (unauthorized, db, sess)
  else
    match db.taskByParam P id with
    | none => (notFound, db, sess)
    | some task =>
      if task.user_id ≠ sess.userId then (notFound, db, sess)
      else (⟨200, .success⟩, db.deleteTasksByParam P id, sess)

/-! ## The server as a transition system -/

/-- A request to one of the API routes. -/
inductive Request where
  | register (b : Credentials)
  | login (b : Credentials)
  | logout
  | me
  | changeEmail (newEmail : Option String)
  | deleteAccount (password : Option String)
  | listTasks (q : ListQuery)
  | createTask (b : CreateBody)
  | updateTask (id : String) (b : UpdateBody)
  | toggleTask (id : String)
  | deleteTask (id : String)

/-- Route dispatch. -/
def handle (P : Platform) (env : Env) (db : Db) (sess : Session) :
    Request → Response × Db × Session
  | .register b => register P env db sess b
  | .login b => login P db sess b
  | .logout => logout env db sess
  | .me => me db sess
  | .changeEmail e => changeEmail P db sess e
  | .deleteAccount p => deleteAccount P env db sess p
  | .listTasks q => listTasks db sess q
  | .createTask b => createTask env db sess b
  | .updateTask id b => updateTask P db sess id b
  | .toggleTask id => toggleTask P db sess id
  | .deleteTask id => deleteTask P db sess id

/-- The server between two requests: the database and the session store
(`sessions.db`), which maps each cookie to its payload. -/
structure World where
  db : Db
  sessions : Nat → Session

/-- The server after start-up on a fresh `data.db`: both tables empty, no session. -/
def World.init : World := ⟨⟨[], [], 0, 0⟩, fun _ => Session.empty⟩

/-- The server handles request `r` carrying cookie `c`. -/
def World.step (P : Platform) (w : World) (c : Nat) (env : Env) (r : Request) : World :=
  let out := handle P env w.db (w.sessions c) r
  ⟨out.2.1, Function.update w.sessions c out.2.2⟩

/-- The response to request `r` carrying cookie `c`. -/
def World.respond (P : Platform) (w : World) (c : Nat) (env : Env) (r : Request) : Response :=
  (handle P env w.db (w.sessions c) r).1

/-- The session of cookie `c` reaches its `maxAge` and is dropped. -/
def World.expire (w : World) (c : Nat) : World :=
  ⟨w.db, Function.update w.sessions c Session.empty⟩

/-- States the server reaches from a fresh start through requests that satisfy
`ok`, with sessions expiring at any time. -/
inductive ReachableBy (P : Platform) (ok : Request → Prop) : World → Prop where
  | init : ReachableBy P ok World.init
  | step {w : World} (c : Nat) (env : Env) (r : Request) :
      ReachableBy P ok w → ok r → ReachableBy P ok (w.step P c env r)
  | expire {w : World} (c : Nat) : ReachableBy P ok w → ReachableBy P ok (w.expire c)

/-- States reachable through the API. -/
def Reachable (P : Platform) : World → Prop := ReachableBy P (fun _ => True)

/-! ## A concrete platform, to run the handlers on concrete requests -/

/-- Row id denoted by a string of decimal digits. -/
def decimalRowId (s : String) : Option Nat :=
  if s.data.isEmpty || !s.data.all Char.isDigit then none
  else some (s.data.foldl (fun n c => 10 * n + (c.toNat - 48)) 0)

/-- A platform for running examples: a transparent stand-in for bcrypt (the hash is
the salt followed by the password, and a password verifies when the hash ends with
it), ASCII lower-casing, decimal row ids. -/
def refPlatform : Platform where
  bcryptHash password salt := salt ++ password
  bcryptCompare password hash :=
    decide (hash.data.drop (hash.data.length - password.data.length) = password.data)
  toLowerCase := sqliteLower
  textToRowId := decimalRowId

/-- An environment for running examples: clock reading `t`, salt `"s."`, and a
session store that destroys without error. -/
def refEnv (t : Nat) : Env := ⟨t, "s.", false⟩

/-! ## Specification-side predicates -/

/-- The search test in the words of the specification: the search text occurs in the
column as a substring. -/
def containsText (search : String) (col : Option String) : Prop :=
  ∃ d, col = some d ∧ search.data <:+: d.data

/-- The search test as the code performs it on a plain search text: the column, read
up to its first U+0000, contains the search text as a substring up to ASCII letter
case. -/
def containsTextNoCase (search : String) (col : Option String) : Prop :=
  ∃ d, col = some d ∧ search.data.map asciiLower <:+: (cText d.data).map asciiLower

/-- A character of a plain search text: not a LIKE wildcard (`%`, `_`), not U+0000,
and none of U+FFFD, U+FFFE, U+FFFF. -/
def plainSearchChar (c : Char) : Bool :=
  c != '%' && c != '_' && c.toNat != 0 && c.toNat != 0xFFFD && c.toNat != 0xFFFE
    && c.toNat != 0xFFFF

/-- The rows List is specified to return to user `uid` for query `q`, for a given
reading `hit` of the search test: the rows of `uid` that pass every recognised
filter; a filter value that is not recognised constrains nothing. -/
def ListSpec (hit : String → Option String → Prop) (uid : Nat) (q : ListQuery) (t : Task) :
    Prop :=
  t.user_id = some uid ∧
  (q.completed = some "0" → t.completed = 0) ∧
  (q.completed = some "1" → t.completed = 1) ∧
  (q.priority = some "1" → t.priority = some 1) ∧
  (q.priority = some "2" → t.priority = some 2) ∧
  (q.priority = some "3" → t.priority = some 3) ∧
  (∀ s, q.search = some s → jsTrim s ≠ "" → hit s (some t.title) ∨ hit s t.description)

/-! ## State invariants -/

/-- The `tasks` table respects its primary key, and every completion flag is 0 or 1. -/
def Db.TasksWf (db : Db) : Prop :=
  (db.tasks.map (·.id)).Nodup ∧ ∀ t ∈ db.tasks, t.completed = 0 ∨ t.completed = 1

/-- The database after `UPDATE tasks SET completed = v` on the rows with the id of `t`. -/
def setCompleted (db : Db) (t : Task) (v : Int) : Db :=
  { db with tasks := db.tasks.map (fun x => if x.id = t.id then { x with completed := v } else x) }

/-- The shape `local@domain.tld` in the words of the specification: a non-empty local
part, the single `@`, and a domain with a `.` that has non-empty text on both sides;
no whitespace and no further `@` anywhere. -/
def EmailShape (s : String) : Prop :=
  ∃ l d1 d2 : List Char, s.data = l ++ '@' :: (d1 ++ '.' :: d2) ∧
    l ≠ [] ∧ d1 ≠ [] ∧ d2 ≠ [] ∧ ∀ c ∈ l ++ d1 ++ d2, isJsSpace c = false ∧ c ≠ '@'

/-- No two distinct users hold emails that are equal ignoring case. -/
def EmailsUnique (P : Platform) (db : Db) : Prop :=
  ∀ u ∈ db.users, ∀ v ∈ db.users, u.id ≠ v.id →
    ∀ a b, u.email = some a → v.email = some b → P.toLowerCase a ≠ P.toLowerCase b

/-- No two distinct users hold emails that are equal ignoring ASCII letter case, the
comparison `lower(email) = ?` of the uniqueness query. -/
def EmailsUniqueAscii (db : Db) : Prop :=
  ∀ u ∈ db.users, ∀ v ∈ db.users, u.id ≠ v.id →
    ∀ a b, u.email = some a → v.email = some b → sqliteLower a ≠ sqliteLower b

/-- Every stored email was written by ChangeEmail (it is a lower-cased text that
passed the format test), and no two distinct users hold the same email. -/
def Db.EmailsWf (P : Platform) (db : Db) : Prop :=
  (∀ u ∈ db.users, ∀ e, u.email = some e →
    (∃ x, e = P.toLowerCase x) ∧ emailRegexTest e = true) ∧
  (∀ u ∈ db.users, ∀ v ∈ db.users, u.id ≠ v.id → ∀ e, u.email = some e → v.email ≠ some e)

/-! ## Sample data -/

/-- A database with two users, `alice` (id 1) and `bob` (id 2); task 1 belongs to
alice, task 2 is a row without owner, task 3 belongs to bob. -/
def sampleDb : Db :=
  { users := [⟨1, "alice", "s.secret1", none, 100⟩, ⟨2, "bob", "s.hunter22", none, 101⟩],
    tasks := [⟨1, some 1, "Buy milk", none, none, some 2, 0, 110⟩,
              ⟨2, none, "a", some "old row", none, some 1, 1, 90⟩,
              ⟨3, some 2, "Call mum", none, none, some 3, 0, 120⟩],
    user_seq := 2, task_seq := 3 }

/-- A database in which alice (id 1) has two tasks with unusual titles: task 1 is
titled `a`, U+0000, `secret`, and task 2 is titled `x`, U+FFFF, `y`. -/
def oddTitlesDb : Db :=
  { users := [⟨1, "alice", "s.secret1", none, 100⟩],
    tasks := [⟨1, some 1, "a\x00secret", none, none, some 2, 0, 110⟩,
              ⟨2, some 1, "x\uFFFFy", none, none, some 2, 0, 111⟩],
    user_seq := 1, task_seq := 2 }

/-- The session of alice. -/
def aliceSession : Session := ⟨some 1, some "alice"⟩

/-- The session of bob. -/
def bobSession : Session := ⟨some 2, some "bob"⟩

/-- A database in which bob (id 2) holds the email `bob@x.yy` and alice (id 1) holds
none. -/
def emailDb : Db :=
  { users := [⟨1, "alice", "s.secret1", none, 100⟩,
              ⟨2, "bob", "s.hunter22", some "bob@x.yy", 101⟩],
    tasks := [], user_seq := 2, task_seq := 0 }

/-- A database in which alice (id 1) and bob (id 2) hold the same email `x@y.zz`, as
after `node migrate_add_email.js x@y.zz` on a table of users without email. -/
def sharedEmailDb : Db :=
  { users := [⟨1, "alice", "s.secret1", some "x@y.zz", 100⟩,
              ⟨2, "bob", "s.hunter22", some "x@y.zz", 101⟩],
    tasks := [], user_seq := 2, task_seq := 0 }

/-- A platform for running examples whose `toLowerCase` also folds the capital `É`
to `é`, as JavaScript does; otherwise as `refPlatform`. -/
def accentPlatform : Platform where
  bcryptHash := refPlatform.bcryptHash
  bcryptCompare := refPlatform.bcryptCompare
  toLowerCase s := ⟨s.data.map (fun c => if c = 'É' then 'é' else asciiLower c)⟩
  textToRowId := decimalRowId

/-- A database in which bob (id 2) holds the email `É@x.yy`, a text that ChangeEmail
would not have written, and alice (id 1) holds none. -/
def accentEmailDb : Db :=
  { users := [⟨1, "alice", "s.secret1", none, 100⟩,
              ⟨2, "bob", "s.hunter22", some "É@x.yy", 101⟩],
    tasks := [], user_seq := 2, task_seq := 0 }

/-- The server after alice has registered with cookie 7, logged in a second time
with cookie 8, and deleted her account from cookie 7: the session of cookie 8 still
names her user id. -/
def staleSessionWorld : World :=
  ((World.init.step refPlatform 7 (refEnv 100) (.register ⟨some "alice", some "secret1"⟩)).step
    refPlatform 8 (refEnv 101) (.login ⟨some "alice", some "secret1"⟩)).step
    refPlatform 7 (refEnv 102) (.deleteAccount (some "secret1"))

/-- The server after alice has registered with cookie 7 and created one task. -/
def sampleWorld : World :=
  (World.init.step refPlatform 7 (refEnv 100) (.register ⟨some "alice", some "secret1"⟩)).step
    refPlatform 7 (refEnv 110) (.createTask ⟨some " Buy milk ", none, none, none, none⟩)

/-- The priority Create is specified to store: the supplied one, or 2 when none is
supplied. -/
def specCreatePriority : Option Int → Option Int
  | some n => some n
  | none => some 2

/-- A priority of the data model: 1, 2 or 3. -/
def validPriority (p : Option Int) : Prop := p = some 1 ∨ p = some 2 ∨ p = some 3

/-- Requests whose priority field respects the data model: Create sends no priority
or one of 1, 2, 3; Update sends one of 1, 2, 3. -/
def Request.priorityValid : Request → Prop
  | .createTask b => b.priority = none ∨ validPriority b.priority
  | .updateTask _ b => validPriority b.priority
  | _ => True

/-- The server after alice has registered with cookie 7 and created a task with
priority 9. -/
def priorityNineWorld : World :=
  (World.init.step refPlatform 7 (refEnv 100) (.register ⟨some "alice", some "secret1"⟩)).step
    refPlatform 7 (refEnv 110) (.createTask ⟨some "Buy milk", none, none, some 9, none⟩)

/-- Requests whose title field respects the data model where the handler does not
check it: an Update that sends a title sends one that is not empty after trimming. -/
def Request.titleValid : Request → Prop
  | .updateTask _ b => ∀ s, b.title = some s → jsTrim s ≠ ""
  | _ => True

/-- The server after alice has registered with cookie 7, created the task "Buy milk"
and replaced its title by two spaces through Update. -/
def blankTitleWorld : World :=
  sampleWorld.step refPlatform 7 (refEnv 120)
    (.updateTask "1" ⟨some "  ", none, none, some 2, false⟩)

/-! # Verified claims -/

/-! ## Lookup lemmas -/

theorem taskByParam_eq_some {P : Platform} {db : Db} {id : String} {t : Task}
    (h : db.taskByParam P id = some t) : t ∈ db.tasks ∧ P.textToRowId id = some t.id := by
  unfold Db.taskByParam at h
  cases hn : P.textToRowId id with
  | none => simp [hn] at h
  | some n =>
    simp only [hn, Db.taskById] at h
    have h1 := List.mem_of_find?_eq_some h
    have h2 := List.find?_some h
    simp at h2
    exact ⟨h1, by rw [h2]⟩

/-- C1. For an authenticated session, a task id and any body: when no stored task
with that id is owned by the session user (no row has the id, or the row with the id
has another owner, NULL included), Update, ToggleCompleted and Delete all answer
404 with body `{error: 'Not found'}` and leave the database and the session as they
were. -/
theorem C1_not_found_or_not_owned (P : Platform) (db : Db) (sess : Session) (id : String)
    (b : UpdateBody) (hauth : requireAuth sess = true)
    (h : (∀ t ∈ db.tasks, P.textToRowId id ≠ some t.id) ∨
         (∃ t ∈ db.tasks, P.textToRowId id = some t.id) ∧
           ∀ t ∈ db.tasks, P.textToRowId id = some t.id → t.user_id ≠ sess.userId) :
    updateTask P db sess id b = (⟨404, .error "Not found"⟩, db, sess) ∧
    toggleTask P db sess id = (⟨404, .error "Not found"⟩, db, sess) ∧
    deleteTask P db sess id = (⟨404, .error "Not found"⟩, db, sess) := by
  have key : ∀ t, db.taskByParam P id = some t → t.user_id ≠ sess.userId := by
    intro t ht
    obtain ⟨hm, hid⟩ := taskByParam_eq_some ht
    rcases h with h | ⟨_, h⟩
    · exact absurd hid (h t hm)
    · exact h t hm hid
  unfold updateTask toggleTask deleteTask
  simp only [hauth, notFound, Bool.not_true, Bool.false_eq_true, if_false]
  cases ht : db.taskByParam P id with
  | none => simp
  | some t => simp [key t ht]

/-- C1 at a concrete input: bob addresses task 1, which belongs to alice. -/
theorem C1_not_found_or_not_owned_witness :
    updateTask refPlatform sampleDb bobSession "1" ⟨some "x", none, none, some 1, true⟩
        = (⟨404, .error "Not found"⟩, sampleDb, bobSession) ∧
    toggleTask refPlatform sampleDb bobSession "1" = (⟨404, .error "Not found"⟩, sampleDb, bobSession) ∧
    deleteTask refPlatform sampleDb bobSession "1" = (⟨404, .error "Not found"⟩, sampleDb, bobSession) :=
  C1_not_found_or_not_owned refPlatform sampleDb bobSession "1" _ (by decide)
    (Or.inr ⟨by decide, by decide⟩)

/-! ## LIKE on a pattern without wildcards -/

theorem likeMatch_percent (ps s : List Char) :
    likeMatch ('%' :: ps) s = s.tails.any (fun t => likeMatch ps t) := by
  simp [likeMatch]

theorem asciiLower_cases (c : Char) :
    asciiLower c = c ∨ (97 ≤ (asciiLower c).toNat ∧ (asciiLower c).toNat ≤ 122) := by
  unfold asciiLower
  by_cases h : 65 ≤ c.toNat ∧ c.toNat ≤ 90
  · right
    simp only [h, and_self, if_true]
    obtain ⟨h1, h2⟩ := h
    generalize c.toNat = n at h1 h2
    interval_cases n <;> decide
  · left; simp [h]

theorem plainSearchChar_iff (c : Char) :
    plainSearchChar c = true ↔
      c ≠ '%' ∧ c ≠ '_' ∧ c.toNat ≠ 0 ∧ c.toNat ≠ 0xFFFD ∧ c.toNat ≠ 0xFFFE ∧ c.toNat ≠ 0xFFFF := by
  simp [plainSearchChar, and_assoc]

theorem likeFold_eq_iff {p : Char} (hp : plainSearchChar p = true) (c : Char) :
    likeFold p = likeFold c ↔ asciiLower p = asciiLower c := by
  obtain ⟨_, _, _, hd, he, hf⟩ := (plainSearchChar_iff p).mp hp
  have hrp : sqliteRead p = p := by simp [sqliteRead, he, hf]
  unfold likeFold
  rw [hrp]
  by_cases hc : c.toNat = 0xFFFE ∨ c.toNat = 0xFFFF
  · have h1 : sqliteRead c = Char.ofNat 0xFFFD := by simp [sqliteRead, hc]
    have h2 : asciiLower (Char.ofNat 0xFFFD) = Char.ofNat 0xFFFD := by decide
    have h3 : asciiLower c = c := by
      unfold asciiLower
      rw [if_neg]
      rcases hc with hc | hc <;> omega
    have h4 : (Char.ofNat 0xFFFD).toNat = 0xFFFD := by decide
    rw [h1, h2, h3]
    constructor
    · intro e
      exfalso
      rcases asciiLower_cases p with hq | hq
      · rw [hq] at e
        exact hd (by rw [e]; exact h4)
      · rw [e, h4] at hq
        omega
    · intro e
      exfalso
      rcases asciiLower_cases p with hq | hq
      · rw [hq] at e
        subst e
        rcases hc with hc | hc
        · exact he hc
        · exact hf hc
      · rw [e] at hq
        rcases hc with hc | hc <;> omega
  · have hrc : sqliteRead c = c := by simp [sqliteRead, hc]
    rw [hrc]

theorem likeMatch_literal (s : List Char) (h : ∀ c ∈ s, plainSearchChar c = true)
    (x : List Char) :
    likeMatch (s ++ ['%']) x = true ↔ s.map asciiLower <+: x.map asciiLower := by
  induction s generalizing x with
  | nil =>
    simp only [List.nil_append, likeMatch_percent, List.map_nil, List.nil_prefix, iff_true,
      List.any_eq_true]
    exact ⟨[], by simp, by simp [likeMatch]⟩
  | cons p s ih =>
    have hpp := h p (List.mem_cons_self _ _)
    have hp := (plainSearchChar_iff p).mp hpp
    have hs : ∀ c ∈ s, plainSearchChar c = true := fun c hc => h c (List.mem_cons_of_mem _ hc)
    cases x with
    | nil => simp [likeMatch, hp.1]
    | cons c cs =>
      simp only [List.cons_append, likeMatch, hp.1, if_false, List.map_cons, List.cons_prefix_cons,
        Bool.and_eq_true, Bool.or_eq_true, beq_iff_eq, hp.2.1, false_or, List.append_eq,
        ih hs cs, likeFold_eq_iff hpp c]

theorem likeMatch_contains (s : List Char) (h : ∀ c ∈ s, plainSearchChar c = true)
    (x : List Char) :
    likeMatch ('%' :: (s ++ ['%'])) x = true ↔ s.map asciiLower <:+: x.map asciiLower := by
  rw [likeMatch_percent, List.any_eq_true]
  constructor
  · rintro ⟨t, ht, hm⟩
    rw [List.mem_tails] at ht
    rw [likeMatch_literal s h] at hm
    exact List.infix_iff_prefix_suffix.mpr ⟨_, hm, ht.map asciiLower⟩
  · rintro ⟨a, b, hab⟩
    refine ⟨x.drop a.length, ?_, ?_⟩
    · rw [List.mem_tails]; exact List.drop_suffix _ _
    · rw [likeMatch_literal s h, List.map_drop, ← hab]
      simp

theorem cText_pattern (s : List Char) (h : ∀ c ∈ s, plainSearchChar c = true) :
    cText ('%' :: (s ++ ['%'])) = '%' :: (s ++ ['%']) := by
  unfold cText
  rw [List.takeWhile_eq_self_iff]
  intro c hc
  simp only [List.mem_cons, List.mem_append, List.mem_singleton, List.not_mem_nil, or_false] at hc
  rcases hc with hc | hc | hc
  · subst hc; decide
  · have := ((plainSearchChar_iff c).mp (h c hc)).2.2.1
    simpa using this
  · subst hc; decide

theorem sqlLikeContains_iff (s : String) (h : ∀ c ∈ s.data, plainSearchChar c = true)
    (col : Option String) : sqlLikeContains s col = true ↔ containsTextNoCase s col := by
  cases col with
  | none => simp [sqlLikeContains, containsTextNoCase]
  | some d =>
    simp [sqlLikeContains, containsTextNoCase, cText_pattern s.data h,
      likeMatch_contains s.data h]

theorem string_eq_empty_iff (s : String) : s = "" ↔ s.data = [] := by
  cases s with
  | mk d => exact ⟨fun h => by rw [h], fun h => by simp only at h; subst h; rfl⟩

theorem jsTrim_ne_empty_iff (s : String) : jsTrim s ≠ "" ↔ (jsTrim s).data.isEmpty = false := by
  rw [Ne, string_eq_empty_iff]
  cases (jsTrim s).data <;> simp

theorem truthyStr_of_jsTrim (s : String) (h : (jsTrim s).data.isEmpty = false) :
    truthyStr (some s) = true := by
  cases s with
  | mk d =>
    cases d with
    | nil => simp [jsTrim, jsTrimChars] at h
    | cons c cs => simp [truthyStr]

theorem listWhere_iff_spec (uid : Nat) (q : ListQuery) (t : Task)
    (hwild : ∀ s, q.search = some s → ∀ c ∈ s.data, plainSearchChar c = true) :
    listWhere uid q t = true ↔ ListSpec containsTextNoCase uid q t := by
  have hc : ((if q.completed = some "0" then decide (t.completed = 0)
      else if q.completed = some "1" then decide (t.completed = 1) else true) = true) ↔
      ((q.completed = some "0" → t.completed = 0) ∧ (q.completed = some "1" → t.completed = 1)) := by
    by_cases h0 : q.completed = some "0"
    · simp [h0]
    · by_cases h1 : q.completed = some "1"
      · simp [h1]
      · simp [h0, h1]
  have hp : ((if q.priority = some "1" then decide (t.priority = some 1)
      else if q.priority = some "2" then decide (t.priority = some 2)
      else if q.priority = some "3" then decide (t.priority = some 3) else true) = true) ↔
      ((q.priority = some "1" → t.priority = some 1) ∧ (q.priority = some "2" → t.priority = some 2)
        ∧ (q.priority = some "3" → t.priority = some 3)) := by
    by_cases h1 : q.priority = some "1"
    · simp [h1]
    · by_cases h2 : q.priority = some "2"
      · simp [h2]
      · by_cases h3 : q.priority = some "3"
        · simp [h3]
        · simp [h1, h2, h3]
  have hs : ((if (truthyStr q.search && !(jsTrim (q.search.getD "")).data.isEmpty) = true then
        sqlLikeContains (q.search.getD "") (some t.title)
          || sqlLikeContains (q.search.getD "") t.description
      else true) = true) ↔
      (∀ s, q.search = some s → jsTrim s ≠ "" →
        containsTextNoCase s (some t.title) ∨ containsTextNoCase s t.description) := by
    cases hq : q.search with
    | none => simp [truthyStr]
    | some s =>
      have hw := hwild s hq
      simp only [Option.getD_some, Option.some.injEq, forall_eq', jsTrim_ne_empty_iff]
      by_cases hb : (jsTrim s).data.isEmpty = false
      · simp only [truthyStr_of_jsTrim s hb, hb, Bool.not_false, Bool.and_self, if_true,
          Bool.or_eq_true, sqlLikeContains_iff s hw, forall_const]
      · simp only [Bool.not_eq_false] at hb
        simp [hb]
  unfold listWhere listWhereHead ListSpec
  rw [Bool.and_eq_true, Bool.and_eq_true, Bool.and_eq_true, decide_eq_true_eq, hc, hp, hs]
  simp only [and_assoc]

/-- A search whose pattern exceeds the limit of SQLite is answered 500 as soon as
one row of the user passes the other filters. -/
theorem listTasks_long_search (db : Db) (sess : Session) (uid : Nat) (q : ListQuery)
    (s : String) (hsess : sess.userId = some uid) (hauth : requireAuth sess = true)
    (hq : q.search = some s) (hne : jsTrim s ≠ "")
    (hlong : likePatternLimit < utf8Bytes s + 2)
    (hrow : ∃ t ∈ db.tasks, listWhereHead uid q t = true) :
    listTasks db sess q = (⟨500, .error "DB error"⟩, db, sess) := by
  have h1 := (jsTrim_ne_empty_iff s).mp hne
  have hany : db.tasks.any (listWhereHead uid q) = true := by
    obtain ⟨t, ht, hh⟩ := hrow
    exact List.any_eq_true.mpr ⟨t, ht, hh⟩
  simp [listTasks, hauth, hsess, likeFails, hq, truthyStr_of_jsTrim s h1, h1, hlong, hany]

/-- C2, as stated, fails on the code.  In the sample database alice has one task,
titled "Buy milk" and without description.  The search `MILK` returns it although the
title does not contain the text `MILK`; the search `_` returns it although the title
contains no underscore; the search that is the single character U+0000 returns it
although the title contains no U+0000.  In the database with the unusual titles, the
search `secret` does not return task 1 although its title contains `secret` (after a
U+0000), and the search U+FFFE returns task 2, whose title contains U+FFFF but no
U+FFFE.  LIKE folds ASCII case, reads `_` and `%` as wildcards, reads its operands up
to their first U+0000, and reads U+FFFE and U+FFFF as U+FFFD. -/
theorem C2_counterexample :
    ((listTasks sampleDb aliceSession ⟨none, none, some "MILK"⟩).1
        = ⟨200, .tasks [⟨1, some 1, "Buy milk", none, none, some 2, 0, 110⟩]⟩ ∧
      ¬ ListSpec containsText 1 ⟨none, none, some "MILK"⟩
          ⟨1, some 1, "Buy milk", none, none, some 2, 0, 110⟩) ∧
    ((listTasks sampleDb aliceSession ⟨none, none, some "_"⟩).1
        = ⟨200, .tasks [⟨1, some 1, "Buy milk", none, none, some 2, 0, 110⟩]⟩ ∧
      ¬ ListSpec containsText 1 ⟨none, none, some "_"⟩
          ⟨1, some 1, "Buy milk", none, none, some 2, 0, 110⟩) ∧
    ((listTasks sampleDb aliceSession ⟨none, none, some "\x00"⟩).1
        = ⟨200, .tasks [⟨1, some 1, "Buy milk", none, none, some 2, 0, 110⟩]⟩ ∧
      ¬ ListSpec containsText 1 ⟨none, none, some "\x00"⟩
          ⟨1, some 1, "Buy milk", none, none, some 2, 0, 110⟩) ∧
    ((listTasks oddTitlesDb aliceSession ⟨none, none, some "secret"⟩).1 = ⟨200, .tasks []⟩ ∧
      ListSpec containsText 1 ⟨none, none, some "secret"⟩
          ⟨1, some 1, "a\x00secret", none, none, some 2, 0, 110⟩) ∧
    ((listTasks oddTitlesDb aliceSession ⟨none, none, some "\uFFFE"⟩).1
        = ⟨200, .tasks [⟨2, some 1, "x\uFFFFy", none, none, some 2, 0, 111⟩]⟩ ∧
      ¬ ListSpec containsText 1 ⟨none, none, some "\uFFFE"⟩
          ⟨2, some 1, "x\uFFFFy", none, none, some 2, 0, 111⟩) := by
  refine ⟨⟨by decide, ?_⟩, ⟨by decide, ?_⟩, ⟨by decide, ?_⟩, ⟨by decide, ?_⟩, ⟨by decide, ?_⟩⟩
  · intro h
    rcases h.2.2.2.2.2.2 "MILK" rfl (by decide) with ⟨d, hd, hi⟩ | ⟨d, hd, _⟩
    · simp only [Option.some.injEq] at hd
      subst hd
      revert hi
      decide
    · simp at hd
  · intro h
    rcases h.2.2.2.2.2.2 "_" rfl (by decide) with ⟨d, hd, hi⟩ | ⟨d, hd, _⟩
    · simp only [Option.some.injEq] at hd
      subst hd
      revert hi
      decide
    · simp at hd
  · intro h
    rcases h.2.2.2.2.2.2 "\x00" rfl (by decide) with ⟨d, hd, hi⟩ | ⟨d, hd, _⟩
    · simp only [Option.some.injEq] at hd
      subst hd
      revert hi
      decide
    · simp at hd
  · refine ⟨rfl, by simp, by simp, by simp, by simp, by simp, ?_⟩
    intro s hs _
    simp only [Option.some.injEq] at hs
    subst hs
    exact Or.inl ⟨_, rfl, by decide⟩
  · intro h
    rcases h.2.2.2.2.2.2 "\uFFFE" rfl (by decide) with ⟨d, hd, hi⟩ | ⟨d, hd, _⟩
    · simp only [Option.some.injEq] at hd
      subst hd
      revert hi
      decide
    · simp at hd

/-- C2, amended.  For an authenticated user and a query whose search text is plain
(it contains none of `%`, `_`, U+0000, U+FFFD, U+FFFE, U+FFFF) and takes at most
49998 bytes in UTF-8, List answers 200 with
exactly the stored tasks (each once, in some order) that pass the assembled filter,
and a task passes it exactly when its owner is the session user, it meets each
recognised `completed` (`0`, `1`) and `priority` (`1`, `2`, `3`) value, and, for a
non-blank search, its title or its description, read up to its first U+0000, contains
the search text as a substring up to ASCII letter case.  Other filter values
constrain nothing, and no task of another owner is returned. -/
theorem C2_list_amended (db : Db) (sess : Session) (uid : Nat) (q : ListQuery)
    (hsess : sess.userId = some uid) (hauth : requireAuth sess = true)
    (hwild : ∀ s, q.search = some s → ∀ c ∈ s.data, plainSearchChar c = true)
    (hsize : ∀ s, q.search = some s → utf8Bytes s + 2 ≤ likePatternLimit) :
    ∃ rows, listTasks db sess q = (⟨200, .tasks rows⟩, db, sess) ∧
      rows.Perm (db.tasks.filter (listWhere uid q)) ∧
      (∀ t, listWhere uid q t = true ↔ ListSpec containsTextNoCase uid q t) ∧
      (∀ t, t ∈ rows ↔ t ∈ db.tasks ∧ ListSpec containsTextNoCase uid q t) := by
  refine ⟨(db.tasks.filter (listWhere uid q)).insertionSort (fun a b => listBefore a b = true),
    ?_, List.perm_insertionSort _ _, fun t => listWhere_iff_spec uid q t hwild, ?_⟩
  · have hlim : likeFails uid q db = false := by
      cases hq : q.search with
      | none => simp [likeFails, truthyStr, hq]
      | some s =>
        have hle := hsize s hq
        have hd : decide (likePatternLimit < utf8Bytes s + 2) = false := by
          rw [decide_eq_false_iff_not]
          omega
        simp [likeFails, hq, hd]
    simp [listTasks, hauth, hsess, hlim]
  · intro t
    rw [List.mem_insertionSort, List.mem_filter, listWhere_iff_spec uid q t hwild]

/-- C2 (amended) at a concrete input: alice lists with `priority=9&search=milk`. -/
theorem C2_list_amended_witness :
    ∃ rows, listTasks sampleDb aliceSession ⟨none, some "9", some "milk"⟩
        = (⟨200, .tasks rows⟩, sampleDb, aliceSession) ∧
      rows.Perm (sampleDb.tasks.filter (listWhere 1 ⟨none, some "9", some "milk"⟩)) ∧
      (∀ t, listWhere 1 ⟨none, some "9", some "milk"⟩ t = true
        ↔ ListSpec containsTextNoCase 1 ⟨none, some "9", some "milk"⟩ t) ∧
      (∀ t, t ∈ rows ↔ t ∈ sampleDb.tasks
        ∧ ListSpec containsTextNoCase 1 ⟨none, some "9", some "milk"⟩ t) :=
  C2_list_amended sampleDb aliceSession 1 ⟨none, some "9", some "milk"⟩ rfl (by decide)
    (by
      intro s hs
      simp only [Option.some.injEq] at hs
      subst hs
      decide)
    (by
      intro s hs
      simp only [Option.some.injEq] at hs
      subst hs
      decide)

/-! ## Reachable states and invariants of the `tasks` table -/

theorem ReachableBy.db_invariant {P : Platform} {ok : Request → Prop} (I : Db → Prop)
    (h0 : I World.init.db)
    (hstep : ∀ env db sess r, ok r → I db → I (handle P env db sess r).2.1) :
    ∀ w, ReachableBy P ok w → I w.db := by
  intro w hw
  induction hw with
  | init => exact h0
  | step c env r _ hr ih => exact hstep env _ _ r hr ih
  | expire c _ ih => exact ih

theorem le_foldr_max (ids : List Nat) : ∀ x ∈ ids, x ≤ ids.foldr max 0 := by
  induction ids with
  | nil => simp
  | cons a l ih =>
    intro x hx
    rcases List.mem_cons.mp hx with h | h
    · subst h; exact le_max_left _ _
    · exact le_trans (ih x h) (le_max_right _ _)

theorem nextId_fresh (seq : Nat) (ids : List Nat) : nextId seq ids ∉ ids := by
  intro h
  have h1 := le_foldr_max ids _ h
  unfold nextId at h1
  have h2 : ids.foldr max 0 ≤ max seq (ids.foldr max 0) := le_max_right _ _
  omega

theorem nextId_pos (seq : Nat) (ids : List Nat) : nextId seq ids ≠ 0 := by
  unfold nextId; omega

theorem insertTask_eq (db : Db) (env : Env) (uid : Option Nat) (title : String)
    (d dd : Option String) (p : Option Int) :
    db.insertTask env uid title d dd p =
      some (nextId db.task_seq (db.tasks.map (·.id)),
        { db with
          tasks := db.tasks ++
            [⟨nextId db.task_seq (db.tasks.map (·.id)), uid, title, d, dd, p, 0, env.now⟩],
          task_seq := nextId db.task_seq (db.tasks.map (·.id)) }) := by
  simp [Db.insertTask, foreignKeysEnabled]

theorem tasksWf_insert {db : Db} (h : db.TasksWf) (x : Task)
    (hx : x.id = nextId db.task_seq (db.tasks.map (·.id))) (hc : x.completed = 0) (seq : Nat) :
    Db.TasksWf { db with tasks := db.tasks ++ [x], task_seq := seq } := by
  refine ⟨?_, ?_⟩
  · simp only [List.map_append, List.map_cons, List.map_nil]
    refine List.Nodup.append h.1 (List.nodup_singleton _) ?_
    simp only [List.disjoint_singleton, hx]
    exact nextId_fresh _ _
  · intro t ht
    simp only [List.mem_append, List.mem_singleton] at ht
    rcases ht with ht | ht
    · exact h.2 t ht
    · subst ht; exact Or.inl hc

theorem tasksWf_map {db : Db} (h : db.TasksWf) (f : Task → Task) (hid : ∀ t, (f t).id = t.id)
    (hc : ∀ t, t.completed = 0 ∨ t.completed = 1 → (f t).completed = 0 ∨ (f t).completed = 1) :
    Db.TasksWf { db with tasks := db.tasks.map f } := by
  refine ⟨?_, ?_⟩
  · have : (db.tasks.map f).map (·.id) = db.tasks.map (·.id) := by
      simp [List.map_map, Function.comp_def, hid]
    simp only [this]
    exact h.1
  · intro t ht
    simp only [List.mem_map] at ht
    obtain ⟨a, ha, rfl⟩ := ht
    exact hc a (h.2 a ha)

theorem tasksWf_filter {db : Db} (h : db.TasksWf) (p : Task → Bool) :
    Db.TasksWf { db with tasks := db.tasks.filter p } := by
  refine ⟨?_, ?_⟩
  · exact h.1.sublist ((List.filter_sublist _).map _)
  · intro t ht
    exact h.2 t (List.mem_of_mem_filter ht)

theorem updateTasksByParam_tasksWf (P : Platform) {db : Db} (h : db.TasksWf) (id : String)
    (f : Task → Task) (hid : ∀ t, (f t).id = t.id)
    (hc : ∀ t, (f t).completed = 0 ∨ (f t).completed = 1) :
    (db.updateTasksByParam P id f).TasksWf := by
  unfold Db.updateTasksByParam
  cases P.textToRowId id with
  | none => exact h
  | some n =>
    refine tasksWf_map h _ ?_ ?_
    · intro t; by_cases e : t.id = n <;> simp [e, hid]
    · intro t ht; by_cases e : t.id = n <;> simp [e, hc, ht]

theorem deleteTasksByParam_tasksWf (P : Platform) {db : Db} (h : db.TasksWf) (id : String) :
    (db.deleteTasksByParam P id).TasksWf := by
  unfold Db.deleteTasksByParam
  cases P.textToRowId id with
  | none => exact h
  | some n => exact tasksWf_filter h _

theorem handle_tasksWf (P : Platform) (env : Env) (db : Db) (sess : Session) (r : Request)
    (h : db.TasksWf) : (handle P env db sess r).2.1.TasksWf := by
  cases r with
  | register b =>
    simp only [handle, register]
    repeat' split
    all_goals exact h
  | login b =>
    simp only [handle, login]
    repeat' split
    all_goals exact h
  | logout => simp only [handle, logout]; split <;> exact h
  | me =>
    simp only [handle, me]
    repeat' split
    all_goals exact h
  | changeEmail e =>
    simp only [handle, changeEmail]
    repeat' split
    all_goals exact h
  | deleteAccount p =>
    simp only [handle, deleteAccount]
    repeat' split
    all_goals exact h
  | listTasks q =>
    simp only [handle, listTasks]
    repeat' split
    all_goals exact h
  | createTask b =>
    simp only [handle, createTask, insertTask_eq]
    repeat' split
    all_goals first | exact h | exact tasksWf_insert h _ rfl rfl _
  | updateTask id b =>
    simp only [handle, updateTask]
    repeat' split
    all_goals first
      | exact h
      | exact updateTasksByParam_tasksWf P h id _ (fun _ => rfl)
          (fun t => by cases b.completed <;> simp)
  | toggleTask id =>
    simp only [handle, toggleTask]
    repeat' split
    all_goals first
      | exact h
      | exact updateTasksByParam_tasksWf P h id _ (fun _ => rfl)
          (fun t => by simp)
  | deleteTask id =>
    simp only [handle, deleteTask]
    repeat' split
    all_goals first | exact h | exact deleteTasksByParam_tasksWf P h id

theorem reachable_tasksWf {P : Platform} {ok : Request → Prop} {w : World}
    (hw : ReachableBy P ok w) : w.db.TasksWf :=
  ReachableBy.db_invariant (P := P) Db.TasksWf ⟨by simp [World.init], by simp [World.init]⟩
    (fun env db sess r _ h => handle_tasksWf P env db sess r h) w hw

/-! ## Toggle -/

theorem find_task_of_nodup {l : List Task} (hn : (l.map (·.id)).Nodup) {t : Task} (ht : t ∈ l) :
    l.find? (fun x => decide (x.id = t.id)) = some t := by
  induction l with
  | nil => simp at ht
  | cons a l ih =>
    simp only [List.map_cons, List.nodup_cons] at hn
    rcases List.mem_cons.mp ht with h | h
    · subst h; simp
    · have hne : a.id ≠ t.id := by
        intro e
        exact hn.1 (e ▸ List.mem_map_of_mem (·.id) h)
      simp [List.find?_cons, hne, ih hn.2 h]

theorem taskByParam_of_mem (P : Platform) {db : Db} (h : db.TasksWf) {t : Task}
    (ht : t ∈ db.tasks) (id : String) (hid : P.textToRowId id = some t.id) :
    db.taskByParam P id = some t := by
  simp [Db.taskByParam, hid, Db.taskById, find_task_of_nodup h.1 ht]

theorem eq_of_id_eq {db : Db} (h : db.TasksWf) {t x : Task} (ht : t ∈ db.tasks)
    (hx : x ∈ db.tasks) (e : x.id = t.id) : x = t :=
  List.inj_on_of_nodup_map h.1 hx ht e

theorem toggleTask_owned (P : Platform) {db : Db} (h : db.TasksWf) (sess : Session)
    {t : Task} (ht : t ∈ db.tasks) (id : String) (hid : P.textToRowId id = some t.id)
    (hauth : requireAuth sess = true) (hown : t.user_id = sess.userId) :
    toggleTask P db sess id =
      (⟨200, .task { t with completed := if t.completed ≠ 0 then 0 else 1 }⟩,
        setCompleted db t (if t.completed ≠ 0 then 0 else 1), sess) := by
  have hdb : db.updateTasksByParam P id
      (fun x => { x with completed := if t.completed ≠ 0 then 0 else 1 })
      = setCompleted db t (if t.completed ≠ 0 then 0 else 1) := by
    simp [Db.updateTasksByParam, hid, setCompleted]
  have hwf2 : (setCompleted db t (if t.completed ≠ 0 then 0 else 1)).TasksWf :=
    hdb ▸ updateTasksByParam_tasksWf P h id _ (fun _ => rfl)
      (fun _ => by by_cases e : t.completed = 0 <;> simp [e])
  have hmem : ({ t with completed := if t.completed ≠ 0 then 0 else 1 } : Task)
      ∈ (setCompleted db t (if t.completed ≠ 0 then 0 else 1)).tasks := by
    simp only [setCompleted, List.mem_map]
    exact ⟨t, ht, by simp⟩
  have hget := taskByParam_of_mem P hwf2 hmem id (by simpa using hid)
  simp only [toggleTask, hauth, taskByParam_of_mem P h ht id hid, hown, hdb, hget, jsonTask]
  simp

/-- C3. In every state reachable through the API, for a task owned by the requesting
user, two ToggleCompleted requests in succession both answer 200; the first returns
the row with its flag flipped, the second returns the row exactly as it was stored
before the first request, and after the second request the whole database (every
field of that task and every other row) is what it was before the first. -/
theorem C3_toggle_twice (P : Platform) (w : World) (hw : Reachable P w) (c : Nat)
    (env1 env2 : Env) (id : String) (t : Task) (ht : t ∈ w.db.tasks)
    (hid : P.textToRowId id = some t.id) (hauth : requireAuth (w.sessions c) = true)
    (hown : t.user_id = (w.sessions c).userId) :
    w.respond P c env1 (.toggleTask id)
      = ⟨200, .task { t with completed := if t.completed = 0 then 1 else 0 }⟩ ∧
    (w.step P c env1 (.toggleTask id)).respond P c env2 (.toggleTask id) = ⟨200, .task t⟩ ∧
    ((w.step P c env1 (.toggleTask id)).step P c env2 (.toggleTask id)).db = w.db := by
  have hwf := reachable_tasksWf hw
  have h1 := toggleTask_owned P hwf (w.sessions c) ht id hid hauth hown
  have hflag := hwf.2 t ht
  have hwf2 : (setCompleted w.db t (if t.completed ≠ 0 then 0 else 1)).TasksWf := by
    have := handle_tasksWf P env1 w.db (w.sessions c) (.toggleTask id) hwf
    simpa [handle, h1] using this
  have hmem : ({ t with completed := if t.completed ≠ 0 then 0 else 1 } : Task)
      ∈ (setCompleted w.db t (if t.completed ≠ 0 then 0 else 1)).tasks := by
    simp only [setCompleted, List.mem_map]
    exact ⟨t, ht, by simp⟩
  have h2 := toggleTask_owned P hwf2 (w.sessions c) hmem id (by simpa using hid) hauth
    (by simpa using hown)
  have hback : ({ ({ t with completed := if t.completed ≠ 0 then 0 else 1 } : Task) with
      completed := if (if t.completed ≠ 0 then (0 : Int) else 1) ≠ 0 then 0 else 1 } : Task) = t := by
    rcases hflag with e | e <;> cases t <;> simp_all
  have hdb : setCompleted (setCompleted w.db t (if t.completed ≠ 0 then 0 else 1))
      { t with completed := if t.completed ≠ 0 then 0 else 1 }
      (if (if t.completed ≠ 0 then (0 : Int) else 1) ≠ 0 then 0 else 1) = w.db := by
    have hl : (w.db.tasks.map (fun x => if x.id = t.id then
          { x with completed := if t.completed ≠ 0 then 0 else 1 } else x)).map
        (fun x => if x.id = t.id then
          { x with completed := if (if t.completed ≠ 0 then (0 : Int) else 1) ≠ 0 then 0 else 1 }
          else x) = w.db.tasks := by
      rw [List.map_map]
      conv_rhs => rw [← List.map_id w.db.tasks]
      apply List.map_congr_left
      intro x hx
      by_cases e : x.id = t.id
      · have := eq_of_id_eq hwf ht hx e
        subst this
        simpa [e] using hback
      · simp [e]
    cases hd : w.db with
    | mk us ts useq tseq =>
      rw [hd] at hl
      simp only [setCompleted]
      simp only [hl]
  refine ⟨?_, ?_, ?_⟩
  · simp only [World.respond, handle, h1]
    rcases hflag with e | e <;> simp [e]
  · simp only [World.respond, World.step, handle, h1, Function.update_same, h2, hback]
  · simp only [World.step, handle, h1, Function.update_same, h2, hdb]

/-- C3 at a concrete input: alice toggles her task "Buy milk" twice. -/
theorem C3_toggle_twice_witness :
    sampleWorld.respond refPlatform 7 (refEnv 120) (.toggleTask "1")
      = ⟨200, .task ⟨1, some 1, "Buy milk", none, none, some 2, 1, 110⟩⟩ ∧
    (sampleWorld.step refPlatform 7 (refEnv 120) (.toggleTask "1")).respond refPlatform 7
        (refEnv 121) (.toggleTask "1")
      = ⟨200, .task ⟨1, some 1, "Buy milk", none, none, some 2, 0, 110⟩⟩ ∧
    ((sampleWorld.step refPlatform 7 (refEnv 120) (.toggleTask "1")).step refPlatform 7
        (refEnv 121) (.toggleTask "1")).db = sampleWorld.db :=
  C3_toggle_twice refPlatform sampleWorld
    (ReachableBy.step 7 _ _ (ReachableBy.step 7 _ _ ReachableBy.init trivial) trivial)
    7 (refEnv 120) (refEnv 121) "1" ⟨1, some 1, "Buy milk", none, none, some 2, 0, 110⟩
    (by decide) (by decide) (by decide) (by decide)

/-! ## Create -/

theorem taskById_insert (db : Db) (x : Task) (seq : Nat)
    (hx : x.id = nextId db.task_seq (db.tasks.map (·.id))) :
    Db.taskById { db with tasks := db.tasks ++ [x], task_seq := seq } x.id = some x := by
  have hnone : db.tasks.find? (fun t => decide (t.id = x.id)) = none := by
    rw [List.find?_eq_none]
    intro t ht
    simp only [decide_eq_true_eq]
    intro e
    exact nextId_fresh db.task_seq (db.tasks.map (·.id)) (hx ▸ e ▸ List.mem_map_of_mem (·.id) ht)
  simp [Db.taskById, List.find?_append, hnone]

theorem truthyStr_false_of_trim {o : Option String}
    (h : o = none ∨ ∃ s, o = some s ∧ jsTrim s = "") :
    (!truthyStr o || (jsTrim (o.getD "")).data.isEmpty) = true := by
  rcases h with h | ⟨s, h, hs⟩
  · subst h; simp [truthyStr]
  · subst h
    have := (string_eq_empty_iff _).mp hs
    simp [this]

theorem truthyStr_true_of_trim {s : String} (h : jsTrim s ≠ "") :
    (!truthyStr (some s) || (jsTrim ((some s).getD "")).data.isEmpty) = false := by
  have h1 := (jsTrim_ne_empty_iff s).mp h
  simp [truthyStr_of_jsTrim s h1, h1]

/-- C4. For an authenticated Create request: when the title is missing or empty
after trimming, the answer is 400 `{error: 'Title is required'}` and the database
(and session) is unchanged; when the title is present and not empty after trimming,
the request is not rejected: the answer has status 201. -/
theorem C4_create_title_validation (env : Env) (db : Db) (sess : Session) (b : CreateBody)
    (hauth : requireAuth sess = true) :
    ((b.title = none ∨ ∃ s, b.title = some s ∧ jsTrim s = "") →
      createTask env db sess b = (⟨400, .error "Title is required"⟩, db, sess)) ∧
    (∀ s, b.title = some s → jsTrim s ≠ "" →
      (createTask env db sess b).1.status = 201 ∧ (createTask env db sess b).1.status ≠ 400) := by
  constructor
  · intro h
    simp [createTask, hauth, truthyStr_false_of_trim h]
  · intro s hs hne
    have h := truthyStr_true_of_trim hne
    rw [← hs] at h
    simp [createTask, hauth, h, insertTask_eq]

/-- C4 at concrete inputs: alice sends the title `"  "`, then the title `"Buy milk"`. -/
theorem C4_create_title_validation_witness :
    createTask (refEnv 130) sampleDb aliceSession ⟨some "  ", none, none, none, none⟩
      = (⟨400, .error "Title is required"⟩, sampleDb, aliceSession) ∧
    (createTask (refEnv 130) sampleDb aliceSession
      ⟨some "Buy milk", none, none, none, none⟩).1.status = 201 :=
  ⟨(C4_create_title_validation (refEnv 130) sampleDb aliceSession
      ⟨some "  ", none, none, none, none⟩ (by decide)).1 (Or.inr ⟨"  ", rfl, by decide⟩),
    ((C4_create_title_validation (refEnv 130) sampleDb aliceSession
      ⟨some "Buy milk", none, none, none, none⟩ (by decide)).2 "Buy milk" rfl (by decide)).1⟩

/-- C5, as stated, fails on the code: alice supplies priority 0 with a valid title;
the stored and returned row has priority 2 (`priority || 2`), not the supplied 0. -/
theorem C5_counterexample :
    createTask (refEnv 130) sampleDb aliceSession ⟨some "Buy milk", none, none, some 0, none⟩
      = (⟨201, .task ⟨4, some 1, "Buy milk", none, none, some 2, 0, 130⟩⟩,
          { sampleDb with
            tasks := sampleDb.tasks ++ [⟨4, some 1, "Buy milk", none, none, some 2, 0, 130⟩],
            task_seq := 4 }, aliceSession) ∧
    specCreatePriority (some 0) ≠ some 2 := by
  constructor
  · decide
  · decide

/-- C5, amended.  For an authenticated Create request with a title that is not empty
after trimming, the answer is 201 with one new row, which is appended to the table
while all stored rows (and the users) stay as they were: its id is fresh, its title
is the trimmed input, its owner is the session user whatever `user_id` the body
carries, its completed flag is 0, and its priority is the supplied priority when one
is supplied and is not 0, and 2 when priority is absent or 0. -/
theorem C5_create_amended (env : Env) (db : Db) (sess : Session) (b : CreateBody) (uid : Nat)
    (s : String) (hsess : sess.userId = some uid) (hauth : requireAuth sess = true)
    (hs : b.title = some s) (hne : jsTrim s ≠ "") :
    ∃ t : Task,
      createTask env db sess b
        = (⟨201, .task t⟩, { db with tasks := db.tasks ++ [t], task_seq := t.id }, sess) ∧
      t.id ∉ db.tasks.map (·.id) ∧
      t.title = jsTrim s ∧ t.user_id = some uid ∧ t.completed = 0 ∧
      t.priority = (if b.priority = none ∨ b.priority = some 0 then some 2 else b.priority) := by
  have h := truthyStr_true_of_trim hne
  simp only [Option.getD_some] at h
  refine ⟨⟨nextId db.task_seq (db.tasks.map (·.id)), some uid, jsTrim s, orNull b.description,
    orNull b.due_date, if truthyInt b.priority then b.priority else some 2, 0, env.now⟩,
    ?_, nextId_fresh _ _, rfl, rfl, rfl, ?_⟩
  · simp only [createTask, hauth, insertTask_eq, hsess, hs, Option.getD_some, h, Bool.not_true,
      Bool.false_eq_true, if_false]
    rw [taskById_insert db _ _ rfl]
    rfl
  · cases hp : b.priority with
    | none => simp [truthyInt]
    | some n => by_cases e : n = 0 <;> simp [truthyInt, e]

/-- C5 (amended) at a concrete input: alice creates `"  Buy milk "` with priority 3 and a
foreign `user_id` in the body. -/
theorem C5_create_amended_witness :
    ∃ t : Task,
      createTask (refEnv 130) sampleDb aliceSession ⟨some "  Buy milk ", none, none, some 3, some 2⟩
        = (⟨201, .task t⟩, { sampleDb with tasks := sampleDb.tasks ++ [t], task_seq := t.id },
            aliceSession) ∧
      t.id ∉ sampleDb.tasks.map (·.id) ∧
      t.title = jsTrim "  Buy milk " ∧ t.user_id = some 1 ∧ t.completed = 0 ∧
      t.priority = (if (some 3 : Option Int) = none ∨ (some 3 : Option Int) = some 0 then some 2
        else some 3) :=
  C5_create_amended (refEnv 130) sampleDb aliceSession
    ⟨some "  Buy milk ", none, none, some 3, some 2⟩ 1 "  Buy milk " rfl (by decide) rfl (by decide)

/-! ## Register -/

theorem jsLength_pos_data {s : String} (h : 0 < jsLength s) : s.data.isEmpty = false := by
  cases hd : s.data with
  | nil => simp [jsLength, hd] at h
  | cons c cs => rfl

theorem data_of_jsTrim_length {s : String} (h : 0 < jsLength (jsTrim s)) :
    s.data.isEmpty = false := by
  cases hd : s.data with
  | nil => simp [jsLength, jsTrim, jsTrimChars, hd] at h
  | cons c cs => rfl

theorem userByName_eq_none {db : Db} {u : String} :
    db.userByName u = none ↔ ∀ x ∈ db.users, x.username ≠ u := by
  simp [Db.userByName, List.find?_eq_none]

theorem userById_insert (db : Db) (x : User) (seq : Nat)
    (hx : x.id = nextId db.user_seq (db.users.map (·.id))) :
    Db.userById { db with users := db.users ++ [x], user_seq := seq } x.id = some x := by
  have hnone : db.users.find? (fun t => decide (t.id = x.id)) = none := by
    rw [List.find?_eq_none]
    intro t ht
    simp only [decide_eq_true_eq]
    intro e
    exact nextId_fresh db.user_seq (db.users.map (·.id)) (hx ▸ e ▸ List.mem_map_of_mem (·.id) ht)
  simp [Db.userById, List.find?_append, hnone]

theorem register_valid (P : Platform) (env : Env) (db : Db) (sess : Session) (u p : String)
    (hu : 3 ≤ jsLength (jsTrim u)) (hp : 6 ≤ jsLength p) :
    register P env db sess ⟨some u, some p⟩ =
      match db.userByName u with
      | some _ => (⟨400, .error "Username already taken"⟩, db, sess)
      | none =>
        (⟨201, .publicUser (nextId db.user_seq (db.users.map (·.id))) u none⟩,
          { db with
            users := db.users ++ [⟨nextId db.user_seq (db.users.map (·.id)), u,
              P.bcryptHash p env.salt, none, env.now⟩],
            user_seq := nextId db.user_seq (db.users.map (·.id)) },
          ⟨some (nextId db.user_seq (db.users.map (·.id))), some u⟩) := by
  have h1 : truthyStr (some u) = true := by
    simp [truthyStr, data_of_jsTrim_length (s := u) (by omega)]
  have h2 : truthyStr (some p) = true := by
    simp [truthyStr, jsLength_pos_data (s := p) (by omega)]
  have h3 : ¬ jsLength (jsTrim u) < 3 := by omega
  have h4 : ¬ jsLength p < 6 := by omega
  simp only [register, h1, h2, Bool.not_true, Bool.or_self, Bool.false_eq_true, if_false,
    Option.getD_some, h3, h4]
  cases db.userByName u with
  | some x => rfl
  | none =>
    simp only [Db.insertUser]
    rw [userById_insert db _ _ rfl]
    simp [orNull, truthyStr]

/-- C6, as stated, fails on the code: on the empty database the username `"a  "` has
3 characters and is not taken, the password has 7 characters, and Register answers
400: the length test is applied to the trimmed username. -/
theorem C6_counterexample :
    ("a  ".length = 3 ∧ "secret1".length = 7 ∧ World.init.db.users = []) ∧
    register refPlatform (refEnv 100) World.init.db Session.empty ⟨some "a  ", some "secret1"⟩
      = (⟨400, .error "username must be at least 3 chars"⟩, World.init.db, Session.empty) := by
  constructor
  · decide
  · decide

/-- C6, amended.  For a username whose trimmed form has at least 3 characters (UTF-16
code units, as `length` counts them) and that no stored user has, and a password of
at least 6 characters, Register answers 201 with the new user, appends one user row
with exactly that username (tasks untouched), binds the session to the new id, and
CurrentUser on that session then returns the row with that username. -/
theorem C6_register_then_me (P : Platform) (env : Env) (db : Db) (sess : Session)
    (u p : String) (hu : 3 ≤ jsLength (jsTrim u)) (hp : 6 ≤ jsLength p)
    (hfree : ∀ x ∈ db.users, x.username ≠ u) :
    ∃ (id : Nat) (db2 : Db),
      register P env db sess ⟨some u, some p⟩
        = (⟨201, .publicUser id u none⟩, db2, ⟨some id, some u⟩) ∧
      id ∉ db.users.map (·.id) ∧
      db2.users = db.users ++ [⟨id, u, P.bcryptHash p env.salt, none, env.now⟩] ∧
      db2.tasks = db.tasks ∧
      me db2 ⟨some id, some u⟩ = (⟨200, .userRow id u env.now none⟩, db2, ⟨some id, some u⟩) := by
  refine ⟨nextId db.user_seq (db.users.map (·.id)),
    { db with
      users := db.users ++ [⟨nextId db.user_seq (db.users.map (·.id)), u,
        P.bcryptHash p env.salt, none, env.now⟩],
      user_seq := nextId db.user_seq (db.users.map (·.id)) },
    ?_, nextId_fresh _ _, rfl, rfl, ?_⟩
  · rw [register_valid P env db sess u p hu hp, userByName_eq_none.mpr hfree]
  · have hpos : truthyId (some (nextId db.user_seq (db.users.map (·.id)))) = true := by
      simp [truthyId, nextId_pos]
    simp only [me, hpos, if_true, Option.getD_some]
    rw [userById_insert db _ _ rfl]

/-- C6 (amended) at a concrete input: `carol` registers on the sample database. -/
theorem C6_register_then_me_witness :
    ∃ (id : Nat) (db2 : Db),
      register refPlatform (refEnv 130) sampleDb Session.empty ⟨some "carol", some "secret3"⟩
        = (⟨201, .publicUser id "carol" none⟩, db2, ⟨some id, some "carol"⟩) ∧
      id ∉ sampleDb.users.map (·.id) ∧
      db2.users = sampleDb.users
        ++ [⟨id, "carol", refPlatform.bcryptHash "secret3" (refEnv 130).salt, none, (refEnv 130).now⟩] ∧
      db2.tasks = sampleDb.tasks ∧
      me db2 ⟨some id, some "carol"⟩
        = (⟨200, .userRow id "carol" (refEnv 130).now none⟩, db2, ⟨some id, some "carol"⟩) :=
  C6_register_then_me refPlatform (refEnv 130) sampleDb Session.empty "carol" "secret3"
    (by decide) (by decide) (by decide)

/-! ## Username uniqueness -/

theorem register_db (P : Platform) (env : Env) (db : Db) (sess : Session) (b : Credentials) :
    (register P env db sess b).2.1 = db ∨
    (db.userByName (b.username.getD "") = none ∧
      (register P env db sess b).2.1
        = (db.insertUser env (b.username.getD "")
            (P.bcryptHash (b.password.getD "") env.salt)).2) := by
  simp only [register]
  repeat' split
  all_goals first
    | exact Or.inl rfl
    | exact Or.inr ⟨by assumption, rfl⟩

theorem setEmail_map_username (db : Db) (id : Nat) (e : String) :
    (db.setEmail id e).users.map (·.username) = db.users.map (·.username) := by
  simp only [Db.setEmail, List.map_map]
  apply List.map_congr_left
  intro u _
  by_cases h : u.id = id <;> simp [h]

theorem handle_usernames (P : Platform) (env : Env) (db : Db) (sess : Session) (r : Request)
    (h : (db.users.map (·.username)).Nodup) :
    ((handle P env db sess r).2.1.users.map (·.username)).Nodup := by
  cases r with
  | register b =>
    simp only [handle]
    rcases register_db P env db sess b with e | ⟨hn, e⟩
    · rw [e]; exact h
    · rw [e]
      simp only [Db.insertUser, List.map_append, List.map_cons, List.map_nil]
      refine List.Nodup.append h (List.nodup_singleton _) ?_
      simp only [List.disjoint_singleton, List.mem_map, not_exists, not_and]
      exact fun x hx => userByName_eq_none.mp hn x hx
  | login b =>
    simp only [handle, login]
    repeat' split
    all_goals exact h
  | logout => simp only [handle, logout]; split <;> exact h
  | me =>
    simp only [handle, me]
    repeat' split
    all_goals exact h
  | changeEmail e =>
    simp only [handle, changeEmail]
    repeat' split
    all_goals first
      | exact h
      | (rw [setEmail_map_username]; exact h)
  | deleteAccount p =>
    simp only [handle, deleteAccount]
    repeat' split
    all_goals first
      | exact h
      | exact h.sublist ((List.filter_sublist _).map _)
  | listTasks q =>
    simp only [handle, listTasks]
    repeat' split
    all_goals exact h
  | createTask b =>
    simp only [handle, createTask, insertTask_eq]
    repeat' split
    all_goals exact h
  | updateTask id b =>
    simp only [handle, updateTask, Db.updateTasksByParam]
    repeat' split
    all_goals exact h
  | toggleTask id =>
    simp only [handle, toggleTask, Db.updateTasksByParam]
    repeat' split
    all_goals exact h
  | deleteTask id =>
    simp only [handle, deleteTask, Db.deleteTasksByParam]
    repeat' split
    all_goals exact h

/-- C7, as stated, fails on the code: `alice` exists, and a Register request for
`alice` with the 5-character password `short` is answered with the password
message, not with the conflict `Username already taken`. -/
theorem C7_counterexample :
    (∃ x ∈ sampleDb.users, x.username = "alice") ∧
    register refPlatform (refEnv 130) sampleDb Session.empty ⟨some "alice", some "short"⟩
      = (⟨400, .error "password must be at least 6 chars"⟩, sampleDb, Session.empty) := by
  constructor
  · decide
  · decide

/-- C7, amended.  For every state and every Register request whose username equals,
character for character, the username of a stored user: the request is answered
with status 400 and leaves the database and the session as they were; when the
request also passes the presence and length checks (trimmed username of at least 3,
password of at least 6 characters) the answer is the conflict
`{error: 'Username already taken'}`.  And in every state reachable through the API
no two user rows share a username. -/
theorem C7_register_conflict (P : Platform) (env : Env) (db : Db) (sess : Session)
    (u : String) (pw : Option String) (hex : ∃ x ∈ db.users, x.username = u) :
    ((register P env db sess ⟨some u, pw⟩).1.status = 400 ∧
      (register P env db sess ⟨some u, pw⟩).2 = (db, sess)) ∧
    (∀ p, pw = some p → 3 ≤ jsLength (jsTrim u) → 6 ≤ jsLength p →
      register P env db sess ⟨some u, pw⟩
        = (⟨400, .error "Username already taken"⟩, db, sess)) ∧
    (∀ w, Reachable P w → (w.db.users.map (·.username)).Nodup) := by
  have hsome : ∃ x, db.userByName u = some x := by
    cases hx : db.userByName u with
    | some x => exact ⟨x, rfl⟩
    | none =>
      obtain ⟨x, hm, hu⟩ := hex
      exact absurd hu (userByName_eq_none.mp hx x hm)
  obtain ⟨x, hx⟩ := hsome
  refine ⟨?_, ?_, ?_⟩
  · simp only [register, Option.getD_some, hx]
    repeat' split
    all_goals exact ⟨rfl, rfl⟩
  · intro p hp hu hpl
    subst hp
    rw [register_valid P env db sess u p hu hpl, hx]
  · intro w hw
    exact ReachableBy.db_invariant (P := P) (fun d => (d.users.map (·.username)).Nodup)
      (by simp [World.init]) (fun env d s r _ h => handle_usernames P env d s r h) w hw

/-- C7 (amended) at a concrete input: a second registration of `alice`. -/
theorem C7_register_conflict_witness :
    ((register refPlatform (refEnv 130) sampleDb Session.empty
        ⟨some "alice", some "secret9"⟩).1.status = 400 ∧
      (register refPlatform (refEnv 130) sampleDb Session.empty
        ⟨some "alice", some "secret9"⟩).2 = (sampleDb, Session.empty)) ∧
    register refPlatform (refEnv 130) sampleDb Session.empty ⟨some "alice", some "secret9"⟩
      = (⟨400, .error "Username already taken"⟩, sampleDb, Session.empty) :=
  have h := C7_register_conflict refPlatform (refEnv 130) sampleDb Session.empty "alice"
    (some "secret9") (by decide)
  ⟨h.1, h.2.1 "secret9" rfl (by decide) (by decide)⟩

/-! ## Priorities -/

theorem handle_priorities (P : Platform) (env : Env) (db : Db) (sess : Session) (r : Request)
    (hr : r.priorityValid) (h : ∀ t ∈ db.tasks, validPriority t.priority) :
    ∀ t ∈ (handle P env db sess r).2.1.tasks, validPriority t.priority := by
  cases r with
  | register b =>
    simp only [handle, register]
    repeat' split
    all_goals exact h
  | login b =>
    simp only [handle, login]
    repeat' split
    all_goals exact h
  | logout => simp only [handle, logout]; split <;> exact h
  | me =>
    simp only [handle, me]
    repeat' split
    all_goals exact h
  | changeEmail e =>
    simp only [handle, changeEmail]
    repeat' split
    all_goals exact h
  | deleteAccount p =>
    simp only [handle, deleteAccount]
    repeat' split
    all_goals exact h
  | listTasks q =>
    simp only [handle, listTasks]
    repeat' split
    all_goals exact h
  | createTask b =>
    have hr2 : b.priority = none ∨ validPriority b.priority := hr
    simp only [handle, createTask, insertTask_eq]
    repeat' split
    all_goals first
      | exact h
      | (intro t ht
         simp only [List.mem_append, List.mem_singleton] at ht
         rcases ht with ht | ht
         · exact h t ht
         · subst ht
           first
             | exact Or.inr (Or.inl rfl)
             | (rcases hr2 with e | e
                · simp_all [truthyInt]
                · exact e))
  | updateTask id b =>
    have hb : validPriority b.priority := hr
    simp only [handle, updateTask, Db.updateTasksByParam]
    repeat' split
    all_goals first
      | exact h
      | (intro t ht
         simp only [List.mem_map] at ht
         obtain ⟨a, ha, rfl⟩ := ht
         split
         · exact hb
         · exact h a ha)
  | toggleTask id =>
    simp only [handle, toggleTask, Db.updateTasksByParam]
    repeat' split
    all_goals first
      | exact h
      | (intro t ht
         simp only [List.mem_map] at ht
         obtain ⟨a, ha, rfl⟩ := ht
         split
         · exact h a ha
         · exact h a ha)
  | deleteTask id =>
    simp only [handle, deleteTask, Db.deleteTasksByParam]
    repeat' split
    all_goals first
      | exact h
      | exact fun t ht => h t (List.mem_of_mem_filter ht)

/-- C8, as stated, fails on the code: after alice registers and creates a task with
`priority: 9`, a state reachable through the API, the stored task has priority 9.
Neither Create nor Update checks the priority. -/
theorem C8_counterexample :
    Reachable refPlatform priorityNineWorld ∧
    priorityNineWorld.db.tasks = [⟨1, some 1, "Buy milk", none, none, some 9, 0, 110⟩] ∧
    ¬ ∀ t ∈ priorityNineWorld.db.tasks, validPriority t.priority := by
  refine ⟨ReachableBy.step 7 _ _ (ReachableBy.step 7 _ _ ReachableBy.init trivial) trivial,
    by decide, ?_⟩
  intro h
  have h9 := h ⟨1, some 1, "Buy milk", none, none, some 9, 0, 110⟩ (by decide)
  revert h9
  simp [validPriority]

/-- C8, amended.  In every state reachable through API requests whose priority field
respects the data model (Create sends no priority or one of 1, 2, 3; Update sends
one of 1, 2, 3), the priority of every stored task is 1, 2 or 3. -/
theorem C8_priority_amended (P : Platform) (w : World)
    (hw : ReachableBy P Request.priorityValid w) :
    ∀ t ∈ w.db.tasks, validPriority t.priority :=
  ReachableBy.db_invariant (P := P) (fun d => ∀ t ∈ d.tasks, validPriority t.priority)
    (by simp [World.init]) (fun env d s r hr h => handle_priorities P env d s r hr h) w hw

/-- C8 (amended) at a concrete input: the state after alice registers and creates a
task without priority. -/
theorem C8_priority_amended_witness :
    sampleWorld.db.tasks = [⟨1, some 1, "Buy milk", none, none, some 2, 0, 110⟩] ∧
    validPriority (⟨1, some 1, "Buy milk", none, none, some 2, 0, 110⟩ : Task).priority :=
  ⟨by decide,
    C8_priority_amended refPlatform sampleWorld
      (ReachableBy.step 7 _ _ (ReachableBy.step 7 _ _ ReachableBy.init trivial) (Or.inl rfl))
      _ (by decide)⟩

/-! ## Delete account -/

theorem deleteAccount_verified (P : Platform) (env : Env) (db : Db) (sess : Session)
    (uid : Nat) (user : User) (pw : String) (hsess : sess.userId = some uid)
    (hauth : requireAuth sess = true) (hpw : truthyStr (some pw) = true)
    (huser : db.userById uid = some user)
    (hok : P.bcryptCompare pw user.password_hash = true) :
    deleteAccount P env db sess (some pw)
      = (⟨200, .success⟩,
          { db with users := db.users.filter (fun u => decide (u.id ≠ user.id)) },
          if env.destroyFails then sess else Session.empty) := by
  simp [deleteAccount, hauth, hpw, hsess, huser, hok, Db.deleteUser, foreignKeysEnabled]

/-- C9 on the code, at the failing input: alice (id 1, owner of task 1) deletes her
account with the password that verifies.  The answer is `{success: true}` and her
user row is gone, but the `tasks` table is unchanged: task 1, with `user_id` 1, is
still stored. -/
theorem C9_delete_account_leaves_tasks :
    deleteAccount refPlatform (refEnv 130) sampleDb aliceSession (some "secret1")
      = (⟨200, .success⟩,
          { sampleDb with users := [⟨2, "bob", "s.hunter22", none, 101⟩] }, Session.empty) ∧
    (⟨1, some 1, "Buy milk", none, none, some 2, 0, 110⟩ : Task)
      ∈ (deleteAccount refPlatform (refEnv 130) sampleDb aliceSession (some "secret1")).2.1.tasks := by
  constructor
  · decide
  · decide

/-! ## Change email -/

theorem emailChar_iff (c : Char) : emailChar c = true ↔ isJsSpace c = false ∧ c ≠ '@' := by
  simp [emailChar]

theorem hasInnerDot_split (d : List Char) (h : hasInnerDot d = true) :
    ∃ d1 d2, d = d1 ++ '.' :: d2 ∧ d1 ≠ [] ∧ d2 ≠ [] := by
  induction d with
  | nil => simp [hasInnerDot] at h
  | cons a t ih =>
    cases t with
    | nil => simp [hasInnerDot] at h
    | cons c cs =>
      simp only [hasInnerDot, Bool.or_eq_true, Bool.and_eq_true, beq_iff_eq,
        Bool.not_eq_true', List.isEmpty_eq_false] at h
      rcases h with ⟨hc, hcs⟩ | h
      · subst hc
        exact ⟨[a], cs, rfl, by simp, hcs⟩
      · obtain ⟨d1, d2, e, _, h2⟩ := ih h
        exact ⟨a :: d1, d2, by rw [e]; rfl, by simp, h2⟩

theorem emailRegexTest_shape (s : String) (h : emailRegexTest s = true) : EmailShape s := by
  unfold emailRegexTest at h
  have hsplit := List.takeWhile_append_dropWhile emailChar s.data
  cases hd : s.data.dropWhile emailChar with
  | nil => simp [hd] at h
  | cons c d =>
    simp only [hd, Bool.and_eq_true, beq_iff_eq, Bool.not_eq_true', List.isEmpty_eq_false,
      List.all_eq_true] at h
    obtain ⟨⟨⟨hc, hloc⟩, hall⟩, hdot⟩ := h
    obtain ⟨d1, d2, e, h1, h2⟩ := hasInnerDot_split d hdot
    subst hc
    refine ⟨s.data.takeWhile emailChar, d1, d2, ?_, hloc, h1, h2, ?_⟩
    · rw [← e, ← hd, hsplit]
    · intro x hx
      rw [← emailChar_iff]
      simp only [List.mem_append] at hx
      rcases hx with (hx | hx) | hx
      · exact List.mem_takeWhile_imp hx
      · exact hall x (by rw [e]; simp [hx])
      · exact hall x (by rw [e]; simp [hx])

theorem hasInnerDot_of_split (d1 d2 : List Char) (h1 : d1 ≠ []) (h2 : d2 ≠ []) :
    hasInnerDot (d1 ++ '.' :: d2) = true := by
  induction d1 with
  | nil => exact absurd rfl h1
  | cons a t ih =>
    cases t with
    | nil =>
      cases d2 with
      | nil => exact absurd rfl h2
      | cons b bs => simp [hasInnerDot]
    | cons c cs =>
      have := ih (by simp)
      simp only [List.cons_append] at this ⊢
      simp [hasInnerDot, this]

/-- The hand-written matcher accepts exactly the texts of the shape the regular
expression describes. -/
theorem emailRegexTest_iff_shape (s : String) : emailRegexTest s = true ↔ EmailShape s := by
  constructor
  · exact emailRegexTest_shape s
  · rintro ⟨l, d1, d2, e, hl, h1, h2, hall⟩
    have hl2 : ∀ a ∈ l, emailChar a = true := fun a ha =>
      (emailChar_iff a).mpr (hall a (by simp [ha]))
    have hd : ∀ a ∈ d1 ++ '.' :: d2, emailChar a = true := by
      intro a ha
      simp only [List.mem_append, List.mem_cons] at ha
      rcases ha with ha | ha | ha
      · exact (emailChar_iff a).mpr (hall a (by simp [ha]))
      · subst ha; decide
      · exact (emailChar_iff a).mpr (hall a (by simp [ha]))
    have hat : emailChar '@' = false := by decide
    unfold emailRegexTest
    rw [e, List.takeWhile_append_of_pos hl2, List.dropWhile_append_of_pos hl2]
    simp only [List.takeWhile_cons, hat, List.dropWhile_cons]
    simp [hl, hasInnerDot_of_split d1 d2 h1 h2]
    exact ⟨fun x hx => by simpa using hd x (by simp [hx]), by simpa using hd '.' (by simp),
      fun x hx => by simpa using hd x (by simp [hx])⟩

theorem changeEmail_cases (P : Platform) (db : Db) (sess : Session) (newEmail : Option String) :
    (changeEmail P db sess newEmail).1.status ≠ 200 ∧ (changeEmail P db sess newEmail).2 = (db, sess) ∨
    (requireAuth sess = true ∧ (jsTrim (newEmail.getD "")).data.isEmpty = false ∧
      emailRegexTest (P.toLowerCase (jsTrim (newEmail.getD ""))) = true ∧
      (db.userByLowerEmail (P.toLowerCase (jsTrim (newEmail.getD ""))) = none ∨
        ∃ x, db.userByLowerEmail (P.toLowerCase (jsTrim (newEmail.getD ""))) = some x
          ∧ some x.id = sess.userId) ∧
      changeEmail P db sess newEmail
        = (⟨200, .successEmail (P.toLowerCase (jsTrim (newEmail.getD "")))⟩,
            db.setEmail (sess.userId.getD 0) (P.toLowerCase (jsTrim (newEmail.getD ""))), sess)) := by
  simp only [changeEmail]
  by_cases ha : requireAuth sess = true
  · by_cases hb : (!truthyStr newEmail || (jsTrim (newEmail.getD "")).data.isEmpty) = true
    · left; simp [ha, hb, unauthorized]
    · by_cases hr : emailRegexTest (P.toLowerCase (jsTrim (newEmail.getD ""))) = true
      · have hb2 : (jsTrim (newEmail.getD "")).data.isEmpty = false := by
          simp only [Bool.or_eq_true, not_or, Bool.not_eq_true] at hb
          exact hb.2
        have hb1 : truthyStr newEmail = true := by
          simp only [Bool.or_eq_true, not_or, Bool.not_eq_true, Bool.not_eq_false'] at hb
          exact hb.1
        cases hx : db.userByLowerEmail (P.toLowerCase (jsTrim (newEmail.getD ""))) with
        | none => right; simp [ha, hb1, hr, hb2]
        | some x =>
          by_cases hid : some x.id = sess.userId
          · right; simp [ha, hb1, hr, hb2, hid]
          · left; simp [ha, hb1, hr, hb2, hid]
      · left; simp [ha, hb, hr]
  · left; simp [ha, unauthorized]

theorem userByLowerEmail_none {db : Db} {e : String}
    (h : db.userByLowerEmail e = none) : ∀ u ∈ db.users, u.email.map sqliteLower ≠ some e := by
  simpa [Db.userByLowerEmail, List.find?_eq_none] using h

theorem userByLowerEmail_some {db : Db} {e : String} {x : User}
    (h : db.userByLowerEmail e = some x) : x ∈ db.users ∧ x.email.map sqliteLower = some e := by
  unfold Db.userByLowerEmail at h
  exact ⟨List.mem_of_find?_eq_some h, by simpa using List.find?_some h⟩

theorem stored_email_fixed {P : Platform}
    (hAscii : ∀ s, sqliteLower (P.toLowerCase s) = P.toLowerCase s) {db : Db}
    (h : db.EmailsWf P) {u : User} (hu : u ∈ db.users) {e : String} (he : u.email = some e) :
    sqliteLower e = e := by
  obtain ⟨⟨x, hx⟩, _⟩ := h.1 u hu e he
  rw [hx, hAscii]

/-- No other user holds `e` when the uniqueness query of ChangeEmail lets the request
of user `uid` pass. -/
theorem no_other_holder {P : Platform}
    (hAscii : ∀ s, sqliteLower (P.toLowerCase s) = P.toLowerCase s) {db : Db}
    (h : db.EmailsWf P) {e : String} {uid : Nat}
    (hq : db.userByLowerEmail e = none ∨ ∃ x, db.userByLowerEmail e = some x ∧ x.id = uid) :
    ∀ v ∈ db.users, v.id ≠ uid → v.email ≠ some e := by
  intro v hv hne hve
  have hfix := stored_email_fixed hAscii h hv hve
  rcases hq with hq | ⟨x, hq, hx⟩
  · exact userByLowerEmail_none hq v hv (by simp [hve, hfix])
  · obtain ⟨hxm, hxe⟩ := userByLowerEmail_some hq
    cases hxo : x.email with
    | none => simp [hxo] at hxe
    | some e0 =>
      have h0 := stored_email_fixed hAscii h hxm hxo
      simp only [hxo, Option.map_some', Option.some.injEq, h0] at hxe
      subst hxe
      exact h.2 x hxm v hv (by rw [hx]; exact fun e => hne e.symm) e0 hxo hve

theorem setEmail_emailsWf {P : Platform} {db : Db} (h : db.EmailsWf P) (uid : Nat) (e : String)
    (hnorm : (∃ x, e = P.toLowerCase x) ∧ emailRegexTest e = true)
    (hfree : ∀ v ∈ db.users, v.id ≠ uid → v.email ≠ some e) :
    (db.setEmail uid e).EmailsWf P := by
  constructor
  · intro u hu a ha
    simp only [Db.setEmail, List.mem_map] at hu
    obtain ⟨u0, hu0, rfl⟩ := hu
    by_cases hid : u0.id = uid
    · simp only [hid, if_true, Option.some.injEq] at ha
      subst ha; exact hnorm
    · simp only [hid, if_false] at ha
      exact h.1 u0 hu0 a ha
  · intro u hu v hv hne a ha hva
    simp only [Db.setEmail, List.mem_map] at hu hv
    obtain ⟨u0, hu0, rfl⟩ := hu
    obtain ⟨v0, hv0, rfl⟩ := hv
    by_cases hiu : u0.id = uid <;> by_cases hiv : v0.id = uid
    · simp [hiu, hiv] at hne
    · simp only [hiu, if_true, Option.some.injEq, hiv, if_false] at ha hva
      subst ha
      exact hfree v0 hv0 hiv hva
    · simp only [hiu, if_false, hiv, if_true, Option.some.injEq] at ha hva
      subst hva
      exact hfree u0 hu0 hiu ha
    · simp only [hiu, if_false, hiv] at ha hva hne
      exact h.2 u0 hu0 v0 hv0 hne a ha hva

theorem emailsWf_filter {P : Platform} {db db2 : Db} (h : db.EmailsWf P) (p : User → Bool)
    (e : db2.users = db.users.filter p) : db2.EmailsWf P := by
  unfold Db.EmailsWf at *
  rw [e]
  exact ⟨fun u hu => h.1 u (List.mem_of_mem_filter hu),
    fun u hu v hv => h.2 u (List.mem_of_mem_filter hu) v (List.mem_of_mem_filter hv)⟩

theorem emailsWf_insert {P : Platform} {db db2 : Db} (h : db.EmailsWf P) (x : User)
    (hx : x.email = none) (e : db2.users = db.users ++ [x]) : db2.EmailsWf P := by
  unfold Db.EmailsWf at *
  rw [e]
  constructor
  · intro u hu a ha
    simp only [List.mem_append, List.mem_singleton] at hu
    rcases hu with hu | hu
    · exact h.1 u hu a ha
    · subst hu; simp [hx] at ha
  · intro u hu v hv hne a ha hva
    simp only [List.mem_append, List.mem_singleton] at hu hv
    rcases hu with hu | hu
    · rcases hv with hv | hv
      · exact h.2 u hu v hv hne a ha hva
      · subst hv; simp [hx] at hva
    · subst hu; simp [hx] at ha

theorem handle_emailsWf (P : Platform)
    (hAscii : ∀ s, sqliteLower (P.toLowerCase s) = P.toLowerCase s)
    (env : Env) (db : Db) (sess : Session) (r : Request) (h : db.EmailsWf P) :
    (handle P env db sess r).2.1.EmailsWf P := by
  cases r with
  | register b =>
    simp only [handle]
    rcases register_db P env db sess b with e | ⟨_, e⟩
    · rw [e]; exact h
    · rw [e]; exact emailsWf_insert h _ rfl rfl
  | login b =>
    simp only [handle, login]
    repeat' split
    all_goals exact h
  | logout => simp only [handle, logout]; split <;> exact h
  | me =>
    simp only [handle, me]
    repeat' split
    all_goals exact h
  | changeEmail e =>
    simp only [handle]
    rcases changeEmail_cases P db sess e with ⟨_, hc⟩ | ⟨_, _, hr, hq, hc⟩
    · rw [hc]; exact h
    · rw [hc]
      refine setEmail_emailsWf h _ _ ⟨⟨_, rfl⟩, hr⟩ (no_other_holder hAscii h ?_)
      rcases hq with hq | ⟨x, hq, hx⟩
      · exact Or.inl hq
      · exact Or.inr ⟨x, hq, by rw [← hx]; rfl⟩
  | deleteAccount p =>
    simp only [handle, deleteAccount]
    repeat' split
    all_goals first
      | exact h
      | exact emailsWf_filter h _ rfl
  | listTasks q =>
    simp only [handle, listTasks]
    repeat' split
    all_goals exact h
  | createTask b =>
    simp only [handle, createTask, insertTask_eq]
    repeat' split
    all_goals exact h
  | updateTask id b =>
    simp only [handle, updateTask, Db.updateTasksByParam]
    repeat' split
    all_goals exact h
  | toggleTask id =>
    simp only [handle, toggleTask, Db.updateTasksByParam]
    repeat' split
    all_goals exact h
  | deleteTask id =>
    simp only [handle, deleteTask, Db.deleteTasksByParam]
    repeat' split
    all_goals exact h

theorem reachable_emailsWf {P : Platform}
    (hAscii : ∀ s, sqliteLower (P.toLowerCase s) = P.toLowerCase s) {w : World}
    (hw : Reachable P w) : w.db.EmailsWf P :=
  ReachableBy.db_invariant (P := P) (Db.EmailsWf P)
    ⟨by simp [World.init], by simp [World.init]⟩
    (fun env db sess r _ h => handle_emailsWf P hAscii env db sess r h) w hw

theorem emailsUnique_of_wf {P : Platform}
    (hIdem : ∀ s, P.toLowerCase (P.toLowerCase s) = P.toLowerCase s) {db : Db}
    (h : db.EmailsWf P) : EmailsUnique P db := by
  intro u hu v hv hne a b ha hb hab
  obtain ⟨⟨x, hx⟩, _⟩ := h.1 u hu a ha
  obtain ⟨⟨y, hy⟩, _⟩ := h.1 v hv b hb
  rw [hx, hy, hIdem, hIdem, ← hx, ← hy] at hab
  subst hab
  exact h.2 u hu v hv hne a ha hb

theorem asciiLower_idem (c : Char) : asciiLower (asciiLower c) = asciiLower c := by
  unfold asciiLower
  by_cases h : 65 ≤ c.toNat ∧ c.toNat ≤ 90
  · simp only [h, and_self, if_true]
    obtain ⟨h1, h2⟩ := h
    generalize c.toNat = n at h1 h2
    interval_cases n <;> decide
  · simp [h]

theorem sqliteLower_idem (s : String) : sqliteLower (sqliteLower s) = sqliteLower s := by
  simp [sqliteLower, Function.comp_def, asciiLower_idem]

theorem reachable_uniqueAscii {P : Platform}
    (hAscii : ∀ s, sqliteLower (P.toLowerCase s) = P.toLowerCase s) {w : World}
    (hw : Reachable P w) : EmailsUniqueAscii w.db := by
  have h := reachable_emailsWf hAscii hw
  intro u hu v hv hne a b ha hb hab
  rw [stored_email_fixed hAscii h hu ha, stored_email_fixed hAscii h hv hb] at hab
  subst hab
  exact h.2 u hu v hv hne a ha hb

/-- When emails are unique up to ASCII case and another user holds `e`, the
uniqueness query of a request of `uid` for `e` finds a row of another user. -/
theorem other_holder_found {db : Db} (huniq : EmailsUniqueAscii db) {e : String}
    (hfix : sqliteLower e = e) {uid : Nat} {o : User} (ho : o ∈ db.users) (hid : o.id ≠ uid)
    (hoe : o.email = some e) : ∃ x, db.userByLowerEmail e = some x ∧ x.id ≠ uid := by
  cases hq : db.userByLowerEmail e with
  | none => exact absurd (by simp [hoe, hfix]) (userByLowerEmail_none hq o ho)
  | some x =>
    refine ⟨x, rfl, fun hxid => ?_⟩
    obtain ⟨hxm, hxe⟩ := userByLowerEmail_some hq
    cases hxo : x.email with
    | none => simp [hxo] at hxe
    | some a =>
      simp only [hxo, Option.map_some', Option.some.injEq] at hxe
      exact huniq x hxm o ho (by rw [hxid]; exact fun h => hid h.symm) a e hxo hoe
        (by rw [hxe, hfix])

theorem setEmail_uniqueAscii {db : Db} (huniq : EmailsUniqueAscii db) (uid : Nat) (e : String)
    (hfree : ∀ v ∈ db.users, v.id ≠ uid → ∀ b, v.email = some b → sqliteLower b ≠ sqliteLower e) :
    EmailsUniqueAscii (db.setEmail uid e) := by
  intro u hu v hv hne a b ha hb
  simp only [Db.setEmail, List.mem_map] at hu hv
  obtain ⟨u0, hu0, rfl⟩ := hu
  obtain ⟨v0, hv0, rfl⟩ := hv
  by_cases hiu : u0.id = uid <;> by_cases hiv : v0.id = uid
  · simp [hiu, hiv] at hne
  · simp only [hiu, if_true, Option.some.injEq, hiv, if_false] at ha hb
    subst ha
    exact fun h => hfree v0 hv0 hiv b hb h.symm
  · simp only [hiu, if_false, hiv, if_true, Option.some.injEq] at ha hb
    subst hb
    exact hfree u0 hu0 hiu a ha
  · simp only [hiu, if_false, hiv] at ha hb hne
    exact huniq u0 hu0 v0 hv0 hne a b ha hb

theorem changeEmail_uniqueAscii (P : Platform)
    (hAscii : ∀ s, sqliteLower (P.toLowerCase s) = P.toLowerCase s)
    (db : Db) (sess : Session) (newEmail : Option String) (huniq : EmailsUniqueAscii db) :
    EmailsUniqueAscii (changeEmail P db sess newEmail).2.1 := by
  rcases changeEmail_cases P db sess newEmail with ⟨_, hc⟩ | ⟨_, _, _, hq, hc⟩
  · rw [hc]; exact huniq
  · rw [hc]
    refine setEmail_uniqueAscii huniq _ _ ?_
    intro v hv hid b hb hbe
    rw [hAscii] at hbe
    rcases hq with hq | ⟨x, hq, hx⟩
    · exact userByLowerEmail_none hq v hv (by simp [hb, hbe])
    · obtain ⟨hxm, hxe⟩ := userByLowerEmail_some hq
      have hxid : x.id = sess.userId.getD 0 := by rw [← hx]; rfl
      cases hxo : x.email with
      | none => simp [hxo] at hxe
      | some a =>
        simp only [hxo, Option.map_some', Option.some.injEq] at hxe
        exact huniq x hxm v hv (by rw [hxid]; exact fun h => hid h.symm) a b hxo hb
          (by rw [hxe, hbe])

theorem truthyStr_of_trim_getD {o : Option String}
    (h : (jsTrim (o.getD "")).data.isEmpty = false) : truthyStr o = true := by
  cases o with
  | none => simp [jsTrim, jsTrimChars] at h
  | some s => exact truthyStr_of_jsTrim s h

theorem changeEmail_other_holder (P : Platform)
    (hAscii : ∀ s, sqliteLower (P.toLowerCase s) = P.toLowerCase s)
    (db : Db) (sess : Session) (newEmail : Option String) (uid : Nat)
    (hsess : sess.userId = some uid) (hauth : requireAuth sess = true)
    (huniq : EmailsUniqueAscii db)
    (hex : ∃ o ∈ db.users, o.id ≠ uid ∧
      o.email = some (P.toLowerCase (jsTrim (newEmail.getD "")))) :
    ((changeEmail P db sess newEmail).1.status = 400 ∧
      (changeEmail P db sess newEmail).2 = (db, sess)) ∧
    ((jsTrim (newEmail.getD "")).data.isEmpty = false →
      emailRegexTest (P.toLowerCase (jsTrim (newEmail.getD ""))) = true →
      changeEmail P db sess newEmail = (⟨400, .error "Email already in use"⟩, db, sess)) := by
  obtain ⟨o, ho, hid, hoe⟩ := hex
  obtain ⟨x, hx, hxid⟩ := other_holder_found huniq (hAscii _) ho hid hoe
  have hxs : some x.id ≠ sess.userId := by rw [hsess]; simpa using hxid
  constructor
  · simp only [changeEmail, hauth, hx, hxs]
    repeat' split
    all_goals first
      | exact ⟨rfl, rfl⟩
      | simp_all
  · intro hb hr
    simp [changeEmail, hauth, truthyStr_of_trim_getD hb, hb, hr, hx, hxs]

/-- C10, as stated, fails on the code.  First, in a state reachable through the API
(alice registers, logs in a second time, and deletes her account from the first
session) the second session is still authenticated, ChangeEmail answers 200 with the
email, and no user row stores it: the users table is empty.  Second, in a table
where alice and bob hold the same email `x@y.zz`, alice asks for `x@y.zz`: another
user holds that normalized email, and the answer is 200, not the conflict.  Third,
with a `toLowerCase` that folds `É`, in a table where only bob holds an email,
`É@x.yy`, alice asks for `é@x.yy`: no two users hold emails equal ignoring case
before, the answer is 200 (`lower()` of SQLite folds ASCII only), and afterwards
alice and bob hold emails that are equal ignoring case. -/
theorem C10_counterexample :
    (Reachable refPlatform staleSessionWorld ∧
      requireAuth (staleSessionWorld.sessions 8) = true ∧
      staleSessionWorld.respond refPlatform 8 (refEnv 103) (.changeEmail (some "a@b.cd"))
        = ⟨200, .successEmail "a@b.cd"⟩ ∧
      (staleSessionWorld.step refPlatform 8 (refEnv 103)
        (.changeEmail (some "a@b.cd"))).db.users = []) ∧
    ((∃ o ∈ sharedEmailDb.users, o.id ≠ 1 ∧ o.email = some "x@y.zz") ∧
      changeEmail refPlatform sharedEmailDb aliceSession (some "x@y.zz")
        = (⟨200, .successEmail "x@y.zz"⟩, sharedEmailDb, aliceSession)) ∧
    (EmailsUnique accentPlatform accentEmailDb ∧
      changeEmail accentPlatform accentEmailDb aliceSession (some "é@x.yy")
        = (⟨200, .successEmail "é@x.yy"⟩, accentEmailDb.setEmail 1 "é@x.yy", aliceSession) ∧
      ¬ EmailsUnique accentPlatform (accentEmailDb.setEmail 1 "é@x.yy")) := by
  refine ⟨⟨ReachableBy.step 7 _ _
    (ReachableBy.step 8 _ _ (ReachableBy.step 7 _ _ ReachableBy.init trivial) trivial) trivial,
    by decide, by decide, by decide⟩, ⟨by decide, by decide⟩, ?_, by decide, ?_⟩
  · intro u hu v hv hne a b ha hb
    simp only [accentEmailDb, List.mem_cons, List.mem_singleton, List.not_mem_nil,
      or_false] at hu hv
    rcases hu with rfl | rfl <;> rcases hv with rfl | rfl <;> simp_all
  · intro h
    exact h ⟨1, "alice", "s.secret1", some "é@x.yy", 100⟩ (by decide)
      ⟨2, "bob", "s.hunter22", some "É@x.yy", 101⟩ (by decide) (by decide)
      "é@x.yy" "É@x.yy" rfl rfl (by decide)

/-- C10, amended.  For every table and every authenticated ChangeEmail request of
user `uid` (with `toLowerCase` leaving no ASCII capital).  On success (status 200)
the returned email is the input trimmed and lower-cased, it has the shape
`local@domain.tld`, the table afterwards is the old one with that email written
into the rows of `uid`: when a row of `uid` exists it stores the email, and the rows
of other users are as before.  If no two distinct users hold emails equal ignoring
ASCII letter case before the request, then: when another user holds the normalized
email the request is answered 400 and changes nothing, with the conflict
`{error: 'Email already in use'}` when the input passes the emptiness and format
checks; and no two distinct users hold emails equal ignoring ASCII letter case
after the request.  In every state reachable through the API no two distinct users
hold emails equal ignoring case (`toLowerCase` being idempotent). -/
theorem C10_change_email_amended (P : Platform)
    (hAscii : ∀ s, sqliteLower (P.toLowerCase s) = P.toLowerCase s)
    (db : Db) (sess : Session) (newEmail : Option String) (uid : Nat)
    (hsess : sess.userId = some uid) (hauth : requireAuth sess = true) :
    ((changeEmail P db sess newEmail).1.status = 200 →
      changeEmail P db sess newEmail
          = (⟨200, .successEmail (P.toLowerCase (jsTrim (newEmail.getD "")))⟩,
              db.setEmail uid (P.toLowerCase (jsTrim (newEmail.getD ""))), sess) ∧
        EmailShape (P.toLowerCase (jsTrim (newEmail.getD ""))) ∧
        ((∃ u ∈ db.users, u.id = uid) →
          ∃ u ∈ (db.setEmail uid (P.toLowerCase (jsTrim (newEmail.getD "")))).users,
            u.id = uid ∧ u.email = some (P.toLowerCase (jsTrim (newEmail.getD "")))) ∧
        (∀ u ∈ (db.setEmail uid (P.toLowerCase (jsTrim (newEmail.getD "")))).users,
          u.id = uid → u.email = some (P.toLowerCase (jsTrim (newEmail.getD "")))) ∧
        (∀ u : User, u.id ≠ uid →
          (u ∈ (db.setEmail uid (P.toLowerCase (jsTrim (newEmail.getD "")))).users
            ↔ u ∈ db.users))) ∧
    (EmailsUniqueAscii db →
      (∃ o ∈ db.users, o.id ≠ uid ∧
        o.email = some (P.toLowerCase (jsTrim (newEmail.getD "")))) →
      ((changeEmail P db sess newEmail).1.status = 400 ∧
        (changeEmail P db sess newEmail).2 = (db, sess)) ∧
      ((jsTrim (newEmail.getD "")).data.isEmpty = false →
        emailRegexTest (P.toLowerCase (jsTrim (newEmail.getD ""))) = true →
        changeEmail P db sess newEmail
          = (⟨400, .error "Email already in use"⟩, db, sess))) ∧
    (EmailsUniqueAscii db → EmailsUniqueAscii (changeEmail P db sess newEmail).2.1) ∧
    ((∀ s, P.toLowerCase (P.toLowerCase s) = P.toLowerCase s) →
      ∀ w, Reachable P w → EmailsUnique P w.db ∧ EmailsUniqueAscii w.db) := by
  have hgetD : sess.userId.getD 0 = uid := by rw [hsess]; rfl
  refine ⟨?_, fun huniq hex =>
      changeEmail_other_holder P hAscii db sess newEmail uid hsess hauth huniq hex,
    changeEmail_uniqueAscii P hAscii db sess newEmail,
    fun hIdem w hw =>
      ⟨emailsUnique_of_wf hIdem (reachable_emailsWf hAscii hw), reachable_uniqueAscii hAscii hw⟩⟩
  intro hst
  rcases changeEmail_cases P db sess newEmail with ⟨hne, _⟩ | ⟨_, _, hr, _, hc⟩
  · exact absurd hst hne
  · rw [hgetD] at hc
    refine ⟨hc, emailRegexTest_shape _ hr, ?_, ?_, ?_⟩
    · rintro ⟨u, hu, hid⟩
      refine ⟨{ u with email := some (P.toLowerCase (jsTrim (newEmail.getD ""))) }, ?_, hid, rfl⟩
      simp only [Db.setEmail, List.mem_map]
      exact ⟨u, hu, by simp [hid]⟩
    · intro u hu hid
      simp only [Db.setEmail, List.mem_map] at hu
      obtain ⟨u0, _, rfl⟩ := hu
      by_cases h0 : u0.id = uid
      · simp [h0]
      · simp [h0] at hid
    · intro u hid
      simp only [Db.setEmail, List.mem_map]
      constructor
      · rintro ⟨u0, hu0, rfl⟩
        by_cases h0 : u0.id = uid
        · simp [h0] at hid
        · simpa [h0] using hu0
      · intro hu
        exact ⟨u, hu, by simp [hid]⟩

/-- C10 (amended) at concrete inputs: in the table where bob holds `bob@x.yy`, alice
asks for `" Bob@X.YY "` and is answered with the conflict; bob asks for
`"Bob@New.org"` and his row stores `bob@new.org`. -/
theorem C10_change_email_amended_witness :
    changeEmail refPlatform emailDb aliceSession (some " Bob@X.YY ")
      = (⟨400, .error "Email already in use"⟩, emailDb, aliceSession) ∧
    (changeEmail refPlatform emailDb bobSession (some "Bob@New.org")
        = (⟨200, .successEmail "bob@new.org"⟩, emailDb.setEmail 2 "bob@new.org", bobSession) ∧
      ∃ u ∈ (emailDb.setEmail 2 "bob@new.org").users, u.id = 2 ∧ u.email = some "bob@new.org") :=
  have huniq : EmailsUniqueAscii emailDb := by
    intro u hu v hv hne a b ha hb
    simp only [emailDb, List.mem_cons, List.mem_singleton, List.not_mem_nil, or_false] at hu hv
    rcases hu with rfl | rfl <;> rcases hv with rfl | rfl <;> simp_all
  have ha := C10_change_email_amended refPlatform sqliteLower_idem emailDb aliceSession
    (some " Bob@X.YY ") 1 rfl (by decide)
  have hb := C10_change_email_amended refPlatform sqliteLower_idem emailDb bobSession
    (some "Bob@New.org") 2 rfl (by decide)
  ⟨(ha.2.1 huniq (by decide)).2 (by decide) (by decide),
    (hb.1 (by decide)).1, (hb.1 (by decide)).2.2.1 (by decide)⟩

/-! ## Login -/

theorem truthyStr_of_ne_empty {s : String} (h : s ≠ "") : truthyStr (some s) = true := by
  have : s.data ≠ [] := fun e => h ((string_eq_empty_iff s).mpr e)
  cases hd : s.data with
  | nil => exact absurd hd this
  | cons c cs => simp [truthyStr, hd]

/-- C11, as stated, fails on the code: `alice` exists, the empty username does not,
and the password `wrong11` is non-empty and does not verify against the hash of
alice; Login answers alice with `Invalid credentials` and the empty username with
`username and password required`. -/
theorem C11_counterexample :
    ((∃ x ∈ sampleDb.users, x.username = "alice") ∧ (∀ x ∈ sampleDb.users, x.username ≠ "") ∧
      ∀ x ∈ sampleDb.users, x.username = "alice" →
        refPlatform.bcryptCompare "wrong11" x.password_hash = false) ∧
    login refPlatform sampleDb Session.empty ⟨some "alice", some "wrong11"⟩
      = (⟨400, .error "Invalid credentials"⟩, sampleDb, Session.empty) ∧
    login refPlatform sampleDb Session.empty ⟨some "", some "wrong11"⟩
      = (⟨400, .error "username and password required"⟩, sampleDb, Session.empty) := by
  refine ⟨⟨by decide, by decide, by decide⟩, by decide, by decide⟩

/-- C11, amended.  For every users table, every non-empty username `u` that exists,
every non-empty username `v` that does not exist, and every non-empty password `p`
that does not verify against the hash stored for `u`: Login with `(u, p)` and Login
with `(v, p)` give the identical response, status 400 with body
`{error: 'Invalid credentials'}`, and both leave the database and the session of
the caller as they were. -/
theorem C11_login_indistinguishable (P : Platform) (db : Db) (sess1 sess2 : Session)
    (u v p : String) (hu : u ≠ "") (hv : v ≠ "") (hp : p ≠ "")
    (hex : ∃ x ∈ db.users, x.username = u) (hnv : ∀ x ∈ db.users, x.username ≠ v)
    (hbad : ∀ x ∈ db.users, x.username = u → P.bcryptCompare p x.password_hash = false) :
    login P db sess1 ⟨some u, some p⟩ = (⟨400, .error "Invalid credentials"⟩, db, sess1) ∧
    login P db sess2 ⟨some v, some p⟩ = (⟨400, .error "Invalid credentials"⟩, db, sess2) ∧
    (login P db sess1 ⟨some u, some p⟩).1 = (login P db sess2 ⟨some v, some p⟩).1 := by
  have h1 : login P db sess1 ⟨some u, some p⟩
      = (⟨400, .error "Invalid credentials"⟩, db, sess1) := by
    simp only [login, truthyStr_of_ne_empty hu, truthyStr_of_ne_empty hp, Bool.not_true,
      Bool.or_self, Bool.false_eq_true, if_false, Option.getD_some]
    cases hx : db.userByName u with
    | none =>
      obtain ⟨x, hm, hxu⟩ := hex
      exact absurd hxu (userByName_eq_none.mp hx x hm)
    | some x =>
      have hm : x ∈ db.users := List.mem_of_find?_eq_some hx
      have hxu : x.username = u := by
        have := List.find?_some hx
        simpa using this
      simp [hbad x hm hxu]
  have h2 : login P db sess2 ⟨some v, some p⟩
      = (⟨400, .error "Invalid credentials"⟩, db, sess2) := by
    simp only [login, truthyStr_of_ne_empty hv, truthyStr_of_ne_empty hp, Bool.not_true,
      Bool.or_self, Bool.false_eq_true, if_false, Option.getD_some,
      userByName_eq_none.mpr hnv]
  exact ⟨h1, h2, by rw [h1, h2]⟩

/-- C11 (amended) at a concrete input: a wrong password for `alice`, and the same
password for `carol`, who does not exist. -/
theorem C11_login_indistinguishable_witness :
    login refPlatform sampleDb Session.empty ⟨some "alice", some "wrong11"⟩
      = (⟨400, .error "Invalid credentials"⟩, sampleDb, Session.empty) ∧
    login refPlatform sampleDb bobSession ⟨some "carol", some "wrong11"⟩
      = (⟨400, .error "Invalid credentials"⟩, sampleDb, bobSession) ∧
    (login refPlatform sampleDb Session.empty ⟨some "alice", some "wrong11"⟩).1
      = (login refPlatform sampleDb bobSession ⟨some "carol", some "wrong11"⟩).1 :=
  C11_login_indistinguishable refPlatform sampleDb Session.empty bobSession "alice" "carol"
    "wrong11" (by decide) (by decide) (by decide) (by decide) (by decide) (by decide)

/-! ## Titles -/

theorem jsTrimChars_eq_nil_iff (l : List Char) :
    jsTrimChars l = [] ↔ ∀ c ∈ l, isJsSpace c = true := by
  unfold jsTrimChars
  rw [List.reverse_eq_nil_iff, List.dropWhile_eq_nil_iff]
  constructor
  · intro h
    have hd : l.dropWhile isJsSpace = [] := by
      have h2 : ∀ c ∈ l.dropWhile isJsSpace, isJsSpace c = true :=
        fun c hc => h c (List.mem_reverse.mpr hc)
      rw [← List.dropWhile_idempotent]
      exact List.dropWhile_eq_nil_iff.mpr h2
    exact List.dropWhile_eq_nil_iff.mp hd
  · intro h c hc
    rw [List.dropWhile_eq_nil_iff.mpr h] at hc
    simp at hc

theorem jsTrimChars_nil_of_trim_nil (l : List Char) : jsTrimChars (jsTrimChars l) = [] → jsTrimChars l = [] := by
  intro h
  have hall := (jsTrimChars_eq_nil_iff _).mp h
  unfold jsTrimChars at hall ⊢
  rw [List.reverse_eq_nil_iff, ← List.dropWhile_idempotent]
  exact List.dropWhile_eq_nil_iff.mpr (fun c hc => hall c (List.mem_reverse.mpr hc))

theorem jsTrim_jsTrim_ne_empty {s : String} (h : jsTrim s ≠ "") : jsTrim (jsTrim s) ≠ "" := by
  intro e
  apply h
  rw [string_eq_empty_iff] at e ⊢
  exact jsTrimChars_nil_of_trim_nil s.data e

/-- Every path but an Update with a blank title keeps the titles non-blank: Create
checks and trims the title, Toggle and Delete do not write it. -/
theorem handle_titles (P : Platform) (env : Env) (db : Db) (sess : Session) (r : Request)
    (hr : r.titleValid) (h : ∀ t ∈ db.tasks, jsTrim t.title ≠ "") :
    ∀ t ∈ (handle P env db sess r).2.1.tasks, jsTrim t.title ≠ "" := by
  cases r with
  | register b =>
    simp only [handle, register]
    repeat' split
    all_goals exact h
  | login b =>
    simp only [handle, login]
    repeat' split
    all_goals exact h
  | logout => simp only [handle, logout]; split <;> exact h
  | me =>
    simp only [handle, me]
    repeat' split
    all_goals exact h
  | changeEmail e =>
    simp only [handle, changeEmail]
    repeat' split
    all_goals exact h
  | deleteAccount p =>
    simp only [handle, deleteAccount]
    repeat' split
    all_goals exact h
  | listTasks q =>
    simp only [handle, listTasks]
    repeat' split
    all_goals exact h
  | createTask b =>
    simp only [handle]
    by_cases hb : (!truthyStr b.title || (jsTrim (b.title.getD "")).data.isEmpty) = true
    · have : (createTask env db sess b).2.1 = db := by
        simp only [createTask]
        repeat' split
        all_goals rfl
      rw [this]; exact h
    · have hne : jsTrim (b.title.getD "") ≠ "" := by
        rw [jsTrim_ne_empty_iff]
        simp only [Bool.or_eq_true, not_or, Bool.not_eq_true] at hb
        exact hb.2
      simp only [createTask, insertTask_eq]
      repeat' split
      all_goals first
        | exact h
        | (intro t ht
           simp only [List.mem_append, List.mem_singleton] at ht
           rcases ht with ht | ht
           · exact h t ht
           · subst ht; exact jsTrim_jsTrim_ne_empty hne)
  | updateTask id b =>
    have hb : ∀ s, b.title = some s → jsTrim s ≠ "" := hr
    simp only [handle, updateTask, Db.updateTasksByParam]
    repeat' split
    all_goals first
      | exact h
      | (intro t ht
         simp only [List.mem_map] at ht
         obtain ⟨a, ha, rfl⟩ := ht
         split
         · exact hb _ (by assumption)
         · exact h a ha)
  | toggleTask id =>
    simp only [handle, toggleTask, Db.updateTasksByParam]
    repeat' split
    all_goals first
      | exact h
      | (intro t ht
         simp only [List.mem_map] at ht
         obtain ⟨a, ha, rfl⟩ := ht
         split
         · exact h a ha
         · exact h a ha)
  | deleteTask id =>
    simp only [handle, deleteTask, Db.deleteTasksByParam]
    repeat' split
    all_goals first
      | exact h
      | exact fun t ht => h t (List.mem_of_mem_filter ht)

/-- In every state reached through requests in which Update never sends a blank
title, every stored title is non-empty after trimming. -/
theorem reachable_titles (P : Platform) (w : World) (hw : ReachableBy P Request.titleValid w) :
    ∀ t ∈ w.db.tasks, jsTrim t.title ≠ "" :=
  ReachableBy.db_invariant (P := P) (fun d => ∀ t ∈ d.tasks, jsTrim t.title ≠ "")
    (by simp [World.init]) (fun env d s r hr h => handle_titles P env d s r hr h) w hw

/-- C12 on the code, at the failing input: alice registers, creates the task
"Buy milk" and sends Update for it with the title of two spaces.  The state is
reachable through the API, Update answers 200 with the row, and the stored title is
the two spaces, which is empty after trimming. -/
theorem C12_update_stores_blank_title :
    Reachable refPlatform blankTitleWorld ∧
    sampleWorld.respond refPlatform 7 (refEnv 120)
        (.updateTask "1" ⟨some "  ", none, none, some 2, false⟩)
      = ⟨200, .task ⟨1, some 1, "  ", none, none, some 2, 0, 110⟩⟩ ∧
    blankTitleWorld.db.tasks = [⟨1, some 1, "  ", none, none, some 2, 0, 110⟩] ∧
    jsTrim "  " = "" := by
  refine ⟨ReachableBy.step 7 _ _
    (ReachableBy.step 7 _ _ (ReachableBy.step 7 _ _ ReachableBy.init trivial) trivial) trivial,
    by decide, by decide, by decide⟩

end TaskTracker
